import Mathlib

/-!
# Verification of the myLobster agent-orchestration core

Shallow embedding of the repository's task queue (`shared/task-queue.js`),
model-name normalization (`shared/model-utils.js`), capability registry
(`shared/agent-registry.js`), strategy router (`shared/smart-router.js`),
agent message bus (`shared/agent-comms.js`, packed at the end of
`shared/smart-router.js` in this snapshot) and the transient-retry loop of
`shared/task-decomposer.js`, together with theorems settling the frozen
claims about them.

Conventions of the embedding:
* SQLite tables become Lean lists of rows in insertion (rowid) order.
* ISO-8601 timestamps become `Nat` (milliseconds); `new Date().toISOString()`
  becomes an explicit `now : Nat` argument threaded to each operation.
* Randomly generated ids (`crypto.randomBytes`) become deterministic
  counters; the source relies on a PRIMARY KEY constraint for uniqueness,
  the model obtains the same uniqueness from the counter.
* JavaScript exceptions become `Except String`.
-/

namespace TQ

/-- Task status column of `swarm_tasks` (`shared/task-queue.js`). -/
inductive Status where
  | pending
  | claimed
  | running
  | done
  | failed
deriving DecidableEq, Repr

/-- The `metadata` TEXT column: either unparseable JSON (the `catch` branch
of `claimTask`) or a parsed object whose `depends_on` field may be absent. -/
inductive Meta where
  | malformed
  | parsed (depends_on : Option (List Int))
deriving DecidableEq, Repr

/-- One row of the `swarm_tasks` table. -/
structure Task where
  id : String
  swarm_id : String
  seq : Nat
  description : String
  prompt : Option String
  status : Status
  agent_id : Option String
  model : Option String
  strategy : Option String
  mode : String
  result : Option String
  error : Option String
  created_at : Nat
  claimed_at : Option Nat
  completed_at : Option Nat
  metadata : Option Meta
deriving DecidableEq, Repr

/-- The whole `swarm_tasks` table, in insertion order. -/
abbrev QState := List Task

/-- Input element of `createSwarm`'s `tasks` array. -/
structure TaskInput where
  description : String
  prompt : Option String
  model : Option String
  strategy : Option String
  mode : Option String
  metadata : Option Meta
deriving DecidableEq, Repr

/-- `` `${sid}-task-${i}` `` — task id generation in `createSwarm`. -/
def mkTaskId (sid : String) (i : Nat) : String :=
  sid ++ "-task-" ++ toString i

/-- Row built by `createSwarm`'s INSERT (status `'pending'`, `seq = i`). -/
def mkTaskRow (sid : String) (now : Nat) (i : Nat) (t : TaskInput) : Task :=
  { id := mkTaskId sid i
    swarm_id := sid
    seq := i
    description := t.description
    prompt := t.prompt
    status := .pending
    agent_id := none
    model := t.model
    strategy := t.strategy
    mode := t.mode.getD "inline"
    result := none
    error := none
    created_at := now
    claimed_at := none
    completed_at := none
    metadata := t.metadata }

/-- `createSwarm({swarmId, tasks})`: inserts all rows in one transaction.
A PRIMARY KEY collision makes the transaction throw and roll back. -/
def createSwarm (sid : String) (inputs : List TaskInput) (now : Nat)
    (s : QState) : Except String QState :=
  let newTasks := inputs.enum.map fun p => mkTaskRow sid now p.1 p.2
  if (∀ t ∈ newTasks, ∀ u ∈ s, u.id ≠ t.id) ∧ (newTasks.map (·.id)).Nodup then
    .ok (s ++ newTasks)
  else
    .error "UNIQUE constraint failed: swarm_tasks.id"

/-- `ORDER BY seq` (stable, as SQLite scans rows in rowid order). -/
def sortBySeq (l : List Task) : List Task :=
  l.insertionSort fun a b => a.seq ≤ b.seq

/-- A conditional `UPDATE ... WHERE p`: returns the new table and the
`changes` count reported by the driver. -/
def updateWhere (p : Task → Bool) (f : Task → Task) (s : QState) :
    QState × Nat :=
  (s.map fun t => if p t then f t else t, s.countP p)

/-- Row update of `claimTask`'s conditional UPDATE
(`SET status='claimed', agent_id=?, claimed_at=?`). -/
def claimedRow (agent : String) (now : Nat) (t : Task) : Task :=
  { t with status := .claimed, agent_id := some agent, claimed_at := some now }

/-- WHERE clause `id=? AND status='pending'` of the conditional UPDATE. -/
def isPendingWithId (id : String) (t : Task) : Bool :=
  t.id == id && t.status == Status.pending

/-- Shared tail of both claim paths: conditionally update the candidate row
(`WHERE id=? AND status='pending'`) and re-select it; `changes = 0` means
another worker got it. -/
def tryClaimCand (agent : String) (now : Nat) (s : QState) :
    Option Task → Option Task × QState
  | none => (none, s)
  | some cand =>
    let u := updateWhere (isPendingWithId cand.id) (claimedRow agent now) s
    if u.2 = 0 then (none, s)
    else (u.1.find? fun t => t.id == cand.id, u.1)

/-- `claimTask` without `checkDeps`: select the pending task with the
smallest `seq`, conditionally update it, re-select the updated row. -/
def claimTaskNoDeps (sid agent : String) (now : Nat) (s : QState) :
    Option Task × QState :=
  tryClaimCand agent now s ((sortBySeq (s.filter fun t =>
    t.swarm_id == sid && t.status == Status.pending)).head?)

/-- Dependency check of `claimTask({checkDeps:true})`: every index in
`metadata.depends_on` must name an existing task (by `seq` position in the
swarm) whose status is `done`.  Malformed metadata skips the check. -/
def depsOk (s : QState) (sid : String) (m : Option Meta) : Bool :=
  match m with
  | none => true
  | some .malformed => true
  | some (.parsed none) => true
  | some (.parsed (some deps)) =>
    if deps.isEmpty then true
    else
      let allTasks := sortBySeq (s.filter fun t => t.swarm_id == sid)
      deps.all fun depIdx =>
        decide (0 ≤ depIdx) &&
          match allTasks.get? depIdx.toNat with
          | some dep => dep.status == Status.done
          | none => false

/-- The candidate loop of `claimTask({checkDeps:true})`. -/
def claimLoop (agent : String) (now : Nat) (s : QState) :
    List Task → Option Task × QState
  | [] => (none, s)
  | cand :: rest =>
    if depsOk s cand.swarm_id cand.metadata then
      let u := updateWhere (isPendingWithId cand.id) (claimedRow agent now) s
      if u.2 = 0 then claimLoop agent now s rest
      else (u.1.find? fun t => t.id == cand.id, u.1)
    else claimLoop agent now s rest

/-- `claimTask(swarmId, agentId, {checkDeps})`. -/
def claimTask (sid agent : String) (checkDeps : Bool) (now : Nat)
    (s : QState) : Option Task × QState :=
  if checkDeps then
    claimLoop agent now s (sortBySeq (s.filter fun t =>
      t.swarm_id == sid && t.status == Status.pending))
  else
    claimTaskNoDeps sid agent now s

/-- `markRunning(taskId)`: unconditional `SET status='running' WHERE id=?`. -/
def markRunning (id : String) (s : QState) : QState :=
  (updateWhere (·.id == id) (fun t => { t with status := .running }) s).1

/-- `completeTask(taskId, result)`: unconditional
`SET status='done', result=?, completed_at=? WHERE id=?`. -/
def completeTask (id : String) (result : String) (now : Nat)
    (s : QState) : QState :=
  (updateWhere (·.id == id)
    (fun t => { t with status := .done, result := some result,
                       completed_at := some now }) s).1

/-- `failTask(taskId, error)`: unconditional
`SET status='failed', error=?, completed_at=? WHERE id=?`. -/
def failTask (id : String) (err : String) (now : Nat) (s : QState) : QState :=
  (updateWhere (·.id == id)
    (fun t => { t with status := .failed, error := some err,
                       completed_at := some now }) s).1

/-- `resetTask(taskId)`: unconditional
`SET status='pending', agent_id=NULL, claimed_at=NULL WHERE id=?` —
note there is no guard on the current status. -/
def resetTask (id : String) (s : QState) : QState :=
  (updateWhere (·.id == id)
    (fun t => { t with status := .pending, agent_id := none,
                       claimed_at := none }) s).1

/-- Queue operation alphabet for reachability arguments.  Lifecycle hooks
(`_fireHook`) never modify the table and are omitted. -/
inductive QOp where
  | create (sid : String) (inputs : List TaskInput) (now : Nat)
  | claim (sid agent : String) (checkDeps : Bool) (now : Nat)
  | run (id : String)
  | complete (id : String) (result : String) (now : Nat)
  | fail (id : String) (err : String) (now : Nat)
  | reset (id : String)
deriving DecidableEq, Repr

/-- One queue operation; a thrown `createSwarm` leaves the table unchanged
(the transaction rolls back). -/
def step (s : QState) : QOp → QState
  | .create sid inputs now => (createSwarm sid inputs now s).toOption.getD s
  | .claim sid agent cd now => (claimTask sid agent cd now s).2
  | .run id => markRunning id s
  | .complete id result now => completeTask id result now s
  | .fail id err now => failTask id err now s
  | .reset id => resetTask id s

/-- Run a sequence of queue operations. -/
def runOps (s : QState) (ops : List QOp) : QState :=
  ops.foldl step s

end TQ

namespace TQ

/-- Invariant (d) of spec §3: `completed_at` set iff status terminal. -/
def CompOk (t : Task) : Prop :=
  t.completed_at ≠ none ↔ (t.status = .done ∨ t.status = .failed)

/-- Guard: `markRunning`/`resetTask` are only applied to non-terminal rows. -/
def guardOk (s : QState) : QOp → Bool
  | .run id => s.all fun t =>
      !(t.id == id) || !(t.status == Status.done || t.status == Status.failed)
  | .reset id => s.all fun t =>
      !(t.id == id) || !(t.status == Status.done || t.status == Status.failed)
  | _ => true

/-- A trace whose every `markRunning`/`resetTask` hits a non-terminal row. -/
def okTrace (s : QState) : List QOp → Bool
  | [] => true
  | op :: ops => guardOk s op && okTrace (step s op) ops

/-- `SELECT * FROM swarm_tasks WHERE id = ?`. -/
def findById (s : QState) (id : String) : Option Task :=
  s.find? (·.id == id)

/-- Concrete trace: create one task, claim it, complete it. -/
def c1Ops : List QOp :=
  [.create "s" [⟨"A", none, none, none, none, none⟩] 0,
   .claim "s" "w" false 1,
   .complete "s-task-0" "r" 2]

/-- Concrete guarded trace used to witness the amended C1 invariant. -/
def c1WitnessOps : List QOp :=
  [.create "s" [⟨"A", none, none, none, none, none⟩,
                ⟨"B", none, none, none, none, none⟩] 0,
   .claim "s" "w" false 1,
   .run "s-task-0",
   .complete "s-task-0" "r" 2,
   .reset "s-task-1"]

/-- A concrete terminal row, for instantiating the claim-preservation part. -/
def c1DoneTask : Task :=
  { id := "x", swarm_id := "s", seq := 0, description := "d", prompt := none,
    status := .done, agent_id := none, model := none, strategy := none,
    mode := "inline", result := none, error := none, created_at := 0,
    claimed_at := some 1, completed_at := some 1, metadata := none }

/-- There is a pending row with the given id. -/
def PendingId (s : QState) (id : String) : Prop :=
  ∃ t ∈ s, t.id = id ∧ t.status = .pending

/-- A sequence of `claimTask` calls: each call is
`(swarmId, agentId, checkDeps, now)`. -/
def claimsSeq : QState → List (String × String × Bool × Nat) →
    List (Option Task) × QState
  | s, [] => ([], s)
  | s, c :: cs =>
    let r := claimTask c.1 c.2.1 c.2.2.1 c.2.2.2 s
    let rest := claimsSeq r.2 cs
    (r.1 :: rest.1, rest.2)

/-- Ids of the tasks handed out by a sequence of claims. -/
def returnedIds (rs : List (Option Task)) : List String :=
  rs.filterMap fun o => o.map (·.id)

/-- A swarm with three pending tasks (scenario S3). -/
def c2State : QState :=
  (createSwarm "s" [⟨"A", none, none, none, none, none⟩,
    ⟨"B", none, none, none, none, none⟩,
    ⟨"C", none, none, none, none, none⟩] 0 []).toOption.getD []

/-- Five claim attempts on that swarm (scenario S3). -/
def c2Calls : List (String × String × Bool × Nat) :=
  [("s", "w1", false, 1), ("s", "w2", false, 2), ("s", "w3", false, 3),
   ("s", "w4", false, 4), ("s", "w5", false, 5)]

end TQ

namespace MU

/-- JavaScript strings modelled as lists of characters. -/
abbrev JStr := List Char

/-- ASCII lower-casing of one character (`String.prototype.toLowerCase` on
the ASCII range used by model names). -/
def lowerChar (c : Char) : Char :=
  if 'A' ≤ c ∧ c ≤ 'Z' then Char.ofNat (c.toNat + 32) else c

/-- `s.toLowerCase()`. -/
def lowerStr (s : JStr) : JStr := s.map lowerChar

/-- Modelled from the spec: `shared/model-utils.js` exporting
`normalizeModel` is absent from `src/` (llm-router.js imports it;
`src/unnamed/part_001` holds only an earlier revision exporting
`normalizeAnthropicModel`, without the `codex` alias or the
`openai-codex/` strip).  Canonical alias set of spec §4.4. -/
def MODEL_ALIASES : List (JStr × JStr) :=
  [(("opus-4").data, ("claude-opus-4-5").data),
   (("sonnet-4").data, ("claude-sonnet-4-5").data),
   (("haiku-4").data, ("claude-haiku-4-5").data),
   (("opus-3").data, ("claude-opus-4").data),
   (("sonnet-3").data, ("claude-sonnet-3-5").data),
   (("gpt-4o").data, ("gpt-4o").data),
   (("gpt-4").data, ("gpt-4-turbo").data),
   (("gpt-3.5").data, ("gpt-3.5-turbo").data),
   (("codex").data, ("gpt-5.3-codex").data)]

/-- Modelled from the spec: strip one provider-prefix form
(`anthropic/…`, `openai/…`, `openai-codex/…`), case-insensitively as in the
earlier revision's regexes. -/
def stripProvider (m : JStr) : JStr :=
  if (lowerStr m).take 10 = ("anthropic/").data then m.drop 10
  else if (lowerStr m).take 13 = ("openai-codex/").data then m.drop 13
  else if (lowerStr m).take 7 = ("openai/").data then m.drop 7
  else m

/-- Alias resolution: `if (MODEL_ALIASES[normalized]) normalized = …`. -/
def resolveAlias (m : JStr) : JStr :=
  (MODEL_ALIASES.lookup m).getD m

/-- Modelled from the spec: `normalizeModel` = strip provider form, then
resolve the alias. -/
def normalizeModel (m : JStr) : JStr :=
  resolveAlias (stripProvider m)

/-- `pat` occurs as a contiguous substring of `l` (`String.includes`). -/
def containsSub (pat l : JStr) : Bool :=
  l.tails.any fun t => pat.isPrefixOf t

/-- `isAnthropicModel` (`model-utils.js`): substring match on the
lower-cased name. -/
def isAnthropicModel (m : JStr) : Bool :=
  if m.isEmpty then false
  else
    let lower := lowerStr m
    containsSub ("claude").data lower || containsSub ("opus").data lower ||
      containsSub ("sonnet").data lower || containsSub ("haiku").data lower

/-- `detectModelProvider` (`model-utils.js`): anthropic by substring,
openai by `gpt-`/`o1`/`o3` head match, else null. -/
def detectModelProvider (m : JStr) : Option String :=
  if m.isEmpty then none
  else
    let normalized := normalizeModel m
    if isAnthropicModel normalized then some "anthropic"
    else
      let lower := lowerStr normalized
      if (("gpt-").data).isPrefixOf lower || (("o1").data).isPrefixOf lower ||
          (("o3").data).isPrefixOf lower then some "openai"
      else none

/-- Model-resolution part of `runLlm` (`shared/llm-router.js`): normalize,
then detect the provider of the normalized name. -/
def runLlmRoute (m : JStr) : JStr × Option String :=
  let normalized := normalizeModel m
  (normalized, detectModelProvider normalized)

end MU

namespace REG

/-- One value of `AGENT_REGISTRY` (`shared/agent-registry.js`).  Pricing is
exact rational (USD per million tokens). -/
structure AgentInfo where
  provider : String
  agentType : Option String
  tier : String
  capabilities : List String
  costTier : Nat
  defaultTimeoutMs : Nat
  maxContextTokens : Nat
  priceIn : ℚ
  priceOut : ℚ
deriving DecidableEq, Repr

/-- `AGENT_REGISTRY`, in key order of the object literal. -/
def AGENT_REGISTRY : List (String × AgentInfo) :=
  [("claude-opus-4-5",
    ⟨"anthropic", some "claude-opus", "best",
     ["coding", "reasoning", "long-context", "creative", "review"],
     3, 120000, 200000, 15, 75⟩),
   ("claude-sonnet-4-5",
    ⟨"anthropic", some "claude-sonnet", "balanced",
     ["coding", "reasoning", "long-context", "review"],
     2, 60000, 200000, 3, 15⟩),
   ("claude-haiku-4-5",
    ⟨"anthropic", some "claude-haiku", "cheap",
     ["classification", "extraction", "simple-reasoning", "review"],
     1, 30000, 200000, 1/4, 5/4⟩),
   ("gpt-5.3-codex",
    ⟨"openai", some "codex", "balanced",
     ["coding", "reasoning"],
     2, 60000, 128000, 5, 15⟩),
   ("gpt-4o",
    ⟨"openai", none, "balanced",
     ["reasoning", "multimodal"],
     2, 60000, 128000, 5, 15⟩)]

/-- `getAgentInfo(model)`. -/
def getAgentInfo (m : String) : Option AgentInfo :=
  AGENT_REGISTRY.lookup m

/-- `getModelsWithCapability(capability)`: keys whose entry lists it. -/
def getModelsWithCapability (cap : String) : List String :=
  (AGENT_REGISTRY.filter fun p => p.2.capabilities.contains cap).map (·.1)

/-- `getAllModels()`. -/
def getAllModels : List String :=
  AGENT_REGISTRY.map (·.1)

/-- `getCheapestModel(candidates)`: first-wins scan for the lowest
`costTier`; `none` plays the role of `Infinity`/`null`. -/
def getCheapestModel (pool : List String) : Option String :=
  (pool.foldl (fun acc m =>
    match AGENT_REGISTRY.lookup m with
    | some info =>
      match acc with
      | none => some (m, info.costTier)
      | some (bm, bc) =>
        if info.costTier < bc then some (m, info.costTier) else some (bm, bc)
    | none => acc) none).map (·.1)

/-- `getFastestModel(candidates)`: same scan on `defaultTimeoutMs`. -/
def getFastestModel (pool : List String) : Option String :=
  (pool.foldl (fun acc m =>
    match AGENT_REGISTRY.lookup m with
    | some info =>
      match acc with
      | none => some (m, info.defaultTimeoutMs)
      | some (bm, bc) =>
        if info.defaultTimeoutMs < bc then some (m, info.defaultTimeoutMs)
        else some (bm, bc)
    | none => acc) none).map (·.1)

/-- `TIER_ORDER[tier] || 0`. -/
def tierOrd (t : String) : Nat :=
  if t = "cheap" then 0 else if t = "balanced" then 1
  else if t = "best" then 2 else 0

/-- `getBestModel(candidates)`: first-wins scan for the highest tier
(initial `bestTier = -1`, so any entry beats an empty accumulator). -/
def getBestModel (pool : List String) : Option String :=
  (pool.foldl (fun acc m =>
    match AGENT_REGISTRY.lookup m with
    | some info =>
      match acc with
      | none => some (m, tierOrd info.tier)
      | some (bm, bt) =>
        if tierOrd info.tier > bt then some (m, tierOrd info.tier)
        else some (bm, bt)
    | none => acc) none).map (·.1)

end REG

namespace SR

open REG

/-- One row of `getModelStats` (GROUP BY model, so models are distinct,
but the embedding does not rely on that). -/
structure Stat where
  model : String
  call_count : Nat
  avg_latency_ms : ℚ
  success_rate : ℚ
  avg_cost : ℚ
deriving DecidableEq, Repr

/-- `statsByModel[m]` after the insertion loop: the last entry wins. -/
def statLookup (stats : List Stat) (m : String) : Option Stat :=
  stats.reverse.find? (·.model == m)

/-- The reliability filter of `resolveModel` (`success_rate >= 0.8`). -/
def reliableFor (stats : List Stat) (m : String) : Bool :=
  match statLookup stats m with
  | some s => decide ((4 : ℚ)/5 ≤ s.success_rate)
  | none => false

/-- Candidate pool of `resolveModel`: capability filter, falling back to
all models when the filter is empty. -/
def resolveCandidates (capability : Option String) : List String :=
  let c0 := match capability with
    | some c => getModelsWithCapability c
    | none => getAllModels
  if c0.isEmpty then getAllModels else c0

/-- First-wins minimizer over models that have stats (`best`/`bestCost`
loop of the `cheapest`/`fastest` branches). -/
def pickMinBy (f : Stat → ℚ) (stats : List Stat) :
    List String → Option String
  | [] => none
  | h :: t =>
    some (((h :: t).foldl (fun acc m =>
      match statLookup stats m with
      | some s => if f s < acc.2 then (m, f s) else acc
      | none => acc)
      (h, match statLookup stats h with | some s => f s | none => 0)).1)

/-- The `balanced` branch maximizer: score `1 / (cost × latency)` with the
JavaScript falsy-guards `avg_cost || 0.001` and `avg_latency_ms || 1`. -/
def pickBalanced (stats : List Stat) : List String → Option String
  | [] => none
  | h :: t =>
    some (((h :: t).foldl (fun (acc : String × Option ℚ) m =>
      match statLookup stats m with
      | some s =>
        let cost := if s.avg_cost = 0 then (1 : ℚ)/1000 else s.avg_cost
        let lat := if s.avg_latency_ms = 0 then (1 : ℚ) else s.avg_latency_ms
        let score := 1 / (cost * lat)
        match acc.2 with
        | none => (m, some score)
        | some bs => if score > bs then (m, some score) else acc
      | none => acc)
      (h, none)).1)

/-- `resolveModel(strategy, {capability, model})` over an explicit stats
snapshot (the embedding of the `getModelStats(24)` result).  `none` models
any falsy strategy/model value. -/
def resolveModel (strategy capability model : Option String)
    (stats : List Stat) : String :=
  if strategy = some "specific" ∨ (strategy = none ∧ model.isSome) then
    model.getD "claude-sonnet-4-5"
  else
    let candidates := resolveCandidates capability
    let reliable := candidates.filter (reliableFor stats)
    match strategy with
    | some "cheapest" =>
      match pickMinBy (·.avg_cost) stats reliable with
      | some m => m
      | none => (getCheapestModel candidates).getD "claude-haiku-4-5"
    | some "fastest" =>
      match pickMinBy (·.avg_latency_ms) stats reliable with
      | some m => m
      | none => (getCheapestModel candidates).getD "claude-haiku-4-5"
    | some "best" => (getBestModel candidates).getD "claude-opus-4-5"
    | some "balanced" =>
      let highReliable := candidates.filter fun m =>
        match statLookup stats m with
        | some s => decide ((9 : ℚ)/10 ≤ s.success_rate)
        | none => false
      match pickBalanced stats highReliable with
      | some m => m
      | none =>
        if candidates.contains "claude-sonnet-4-5" then "claude-sonnet-4-5"
        else "claude-sonnet-4-5"
    | _ => model.getD "claude-sonnet-4-5"

end SR

namespace BUS

inductive JVal where
  | jnull
  | jbool (b : Bool)
  | jnum (n : Int)
  | jstr (s : String)
  | jarr (xs : List JVal)
  | jobj (fields : List (String × JVal))

mutual
def jeq : JVal → JVal → Bool
  | .jnull, .jnull => true
  | .jbool a, .jbool b => a == b
  | .jnum a, .jnum b => a == b
  | .jstr a, .jstr b => a == b
  | .jarr xs, .jarr ys => jeqList xs ys
  | .jobj fs, .jobj gs => jeqFields fs gs
  | _, _ => false

def jeqList : List JVal → List JVal → Bool
  | [], [] => true
  | x :: xs, y :: ys => jeq x y && jeqList xs ys
  | _, _ => false

def jeqFields : List (String × JVal) → List (String × JVal) → Bool
  | [], [] => true
  | (k, v) :: fs, (l, w) :: gs => k == l && jeq v w && jeqFields fs gs
  | _, _ => false
end

mutual
def jeq_eq : ∀ {a b : JVal}, jeq a b = true → a = b
  | .jnull, .jnull, _ => rfl
  | .jbool a, .jbool b, h => by
    simp only [jeq, beq_iff_eq] at h; rw [h]
  | .jnum a, .jnum b, h => by
    simp only [jeq, beq_iff_eq] at h; rw [h]
  | .jstr a, .jstr b, h => by
    simp only [jeq, beq_iff_eq] at h; rw [h]
  | .jarr xs, .jarr ys, h => by
    simp only [jeq] at h; rw [jeqList_eq h]
  | .jobj fs, .jobj gs, h => by
    simp only [jeq] at h; rw [jeqFields_eq h]

def jeqList_eq : ∀ {xs ys : List JVal}, jeqList xs ys = true → xs = ys
  | [], [], _ => rfl
  | x :: xs, y :: ys, h => by
    simp only [jeqList, Bool.and_eq_true] at h
    rw [jeq_eq h.1, jeqList_eq h.2]

def jeqFields_eq : ∀ {fs gs : List (String × JVal)},
    jeqFields fs gs = true → fs = gs
  | [], [], _ => rfl
  | (k, v) :: fs, (l, w) :: gs, h => by
    simp only [jeqFields, Bool.and_eq_true, beq_iff_eq] at h
    rw [h.1.1, jeq_eq h.1.2, jeqFields_eq h.2]
end

mutual
def jeq_refl : ∀ a : JVal, jeq a a = true
  | .jnull => rfl
  | .jbool a => by simp [jeq]
  | .jnum a => by simp [jeq]
  | .jstr a => by simp [jeq]
  | .jarr xs => by simp only [jeq]; exact jeqList_refl xs
  | .jobj fs => by simp only [jeq]; exact jeqFields_refl fs

def jeqList_refl : ∀ xs : List JVal, jeqList xs xs = true
  | [] => rfl
  | x :: xs => by
    simp only [jeqList, Bool.and_eq_true]
    exact ⟨jeq_refl x, jeqList_refl xs⟩

def jeqFields_refl : ∀ fs : List (String × JVal), jeqFields fs fs = true
  | [] => rfl
  | (k, v) :: fs => by
    simp only [jeqFields, Bool.and_eq_true, beq_iff_eq]
    exact ⟨⟨trivial, jeq_refl v⟩, jeqFields_refl fs⟩
end

instance : DecidableEq JVal := fun a b =>
  if h : jeq a b = true then isTrue (jeq_eq h)
  else isFalse fun e => h (e ▸ jeq_refl a)

/-- JSON escaping of one character (quote and backslash; model names and
payload texts in this repository contain no control characters). -/
def escChar (c : Char) : String :=
  if c = '"' then "\\\"" else if c = '\\' then "\\\\" else String.singleton c

/-- Escape a string for inclusion in a JSON document. -/
def escape (s : String) : String :=
  String.join (s.data.map escChar)

mutual
/-- `JSON.stringify`. -/
def stringify : JVal → String
  | .jnull => "null"
  | .jbool true => "true"
  | .jbool false => "false"
  | .jnum n => toString n
  | .jstr s => "\"" ++ escape s ++ "\""
  | .jarr xs => "[" ++ ",".intercalate (stringifyList xs) ++ "]"
  | .jobj fs => "\x7b" ++ ",".intercalate (stringifyFields fs) ++ "\x7d"

def stringifyList : List JVal → List String
  | [] => []
  | v :: vs => stringify v :: stringifyList vs

def stringifyFields : List (String × JVal) → List String
  | [] => []
  | (k, v) :: fs => ("\"" ++ escape k ++ "\":" ++ stringify v) :: stringifyFields fs
end

/-- The `payload` TEXT column, remembering whether the stored text came in
as a raw string (`typeof payload === 'string'`) or as `JSON.stringify` of a
non-string value.  The actual column text is `storedText`. -/
inductive PayloadCol where
  | text (s : String)
  | json (v : JVal)
deriving DecidableEq

/-- The literal TEXT stored in the `payload` column. -/
def storedText : PayloadCol → String
  | .text s => s
  | .json v => stringify v

/-- `JSON.parse` of the stored column, as used by `getContext`.  A
`stringify` image parses back to its value; a raw string payload is
modelled as a parse failure (`JSON.parse` throws on the non-JSON texts this
repository posts; raw strings that themselves spell a JSON document are
outside the model). -/
def parsePayload : PayloadCol → Option JVal
  | .text _ => none
  | .json v => some v

/-- One row of the `messages` table.  `id` models both the TEXT primary key
(`msg-<hex>`, unique by PRIMARY KEY) and the SQLite rowid: the source
generates ids randomly and compares by rowid; the model uses one insertion
counter for both. -/
structure Msg where
  id : Nat
  channel : String
  sender : String
  recipient : Option String
  type : String
  payload : PayloadCol
  created_at : Nat
  expires_at : Option Nat
deriving DecidableEq

/-- One row of `read_cursors`. -/
structure Cursor where
  agent : String
  channel : String
  last_read_id : Nat
  last_read_at : Nat
deriving DecidableEq, Repr

/-- The whole `agent_comms.db` state. -/
structure Store where
  messages : List Msg
  cursors : List Cursor
  nextId : Nat
deriving DecidableEq

/-- The empty database. -/
def emptyStore : Store := ⟨[], [], 0⟩

/-- Arguments of `postMessage`; `none` models an absent (undefined) field. -/
structure PostArgs where
  channel : Option String
  sender : Option String
  recipient : Option String
  type : Option String
  payload : Option JVal
  ttlMinutes : Option Nat
deriving DecidableEq

/-- `postMessage({channel, sender, recipient, type='data', payload,
ttlMinutes})`.  The source performs no validation of its own: a missing
`channel`/`sender`/`payload` reaches the INSERT as `undefined` and makes
the driver throw at bind time, while any `type` string is inserted as-is.
`ttlMinutes` is used under a JavaScript truthiness test, so `0` behaves
like absent and stores `expires_at = NULL`.
`serializePayload` is the column value of
`typeof payload === 'string' ? payload : JSON.stringify(payload)`, with
`undefined` for an absent payload. -/
def serializePayload : Option JVal → Option PayloadCol
  | some (.jstr str) => some (.text str)
  | some v => some (.json v)
  | none => none

def postMessage (now : Nat) (a : PostArgs) (s : Store) :
    Except String (Nat × Store) :=
  match a.channel, a.sender, serializePayload a.payload with
  | some ch, some sd, some pc =>
    let expiresAt : Option Nat := match a.ttlMinutes with
      | some t => if t ≠ 0 then some (now + t * 60000) else none
      | none => none
    let msg : Msg := ⟨s.nextId, ch, sd, a.recipient, a.type.getD "data", pc,
      now, expiresAt⟩
    .ok (s.nextId,
      { s with messages := s.messages ++ [msg], nextId := s.nextId + 1 })
  | _, _, _ =>
    .error "TypeError: SQLite3 can only bind numbers, strings, bigints, buffers, and null"

/-- Options of `readMessages`. -/
structure ReadOpts where
  agentId : Option String
  type : Option String
  since : Option Nat
  limit : Option Nat
deriving DecidableEq, Repr

/-- `expires_at IS NULL OR expires_at > datetime('now')`. -/
def notExpired (now : Nat) (m : Msg) : Bool :=
  match m.expires_at with
  | none => true
  | some e => decide (now < e)

/-- `SELECT last_read_id FROM read_cursors WHERE agent_id=? AND channel=?`. -/
def cursorFor (cs : List Cursor) (a ch : String) : Option Nat :=
  (cs.find? fun c => c.agent == a && c.channel == ch).map (·.last_read_id)

/-- `SELECT rowid FROM messages WHERE id = ?` (NULL when the cursor message
was deleted, which makes the surrounding comparison false). -/
def findRowid (msgs : List Msg) (id : Nat) : Option Nat :=
  (msgs.find? (·.id == id)).map (·.id)

/-- The WHERE clause of `readMessages`. -/
def readPred (s : Store) (now : Nat) (ch : String) (o : ReadOpts)
    (m : Msg) : Bool :=
  m.channel == ch &&
  notExpired now m &&
  (match o.agentId with
   | none => true
   | some a =>
     (m.recipient == none || m.recipient == some a) &&
     (match cursorFor s.cursors a ch with
      | none => true
      | some cid =>
        match findRowid s.messages cid with
        | some r => decide (r < m.id)
        | none => false)) &&
  (match o.type with | none => true | some ty => m.type == ty) &&
  (match o.since with | none => true | some t => decide (t < m.created_at))

/-- `ORDER BY created_at ASC` (stable on ties, like SQLite's scan order). -/
def orderByCreatedAsc (l : List Msg) : List Msg :=
  l.insertionSort fun a b => a.created_at ≤ b.created_at

/-- `ORDER BY created_at DESC` (used by `getContext`). -/
def orderByCreatedDesc (l : List Msg) : List Msg :=
  l.insertionSort fun a b => b.created_at ≤ a.created_at

/-- The UPSERT on `read_cursors` (`ON CONFLICT(agent_id, channel) DO
UPDATE`); at most one row per primary key exists, the first match is
updated in place. -/
def upsertCursor : List Cursor → String → String → Nat → Nat → List Cursor
  | [], a, ch, id, now => [⟨a, ch, id, now⟩]
  | c :: cs, a, ch, id, now =>
    if c.agent == a && c.channel == ch then ⟨a, ch, id, now⟩ :: cs
    else c :: upsertCursor cs a ch id now

/-- The `LIMIT` actually applied: `opts.limit || 50` (the falsy `0` also
selects the default). -/
def limOf (o : ReadOpts) : Nat :=
  match o.limit with | some 0 => 50 | some l => l | none => 50

/-- `readMessages(channel, opts)`: filter, order by `created_at`, apply
`LIMIT (opts.limit || 50)`, and advance the read cursor to the last
returned message when `agentId` was supplied and anything was returned. -/
def readMessages (now : Nat) (ch : String) (o : ReadOpts) (s : Store) :
    List Msg × Store :=
  let msgs := (orderByCreatedAsc (s.messages.filter
    (readPred s now ch o))).take (limOf o)
  match o.agentId with
  | some a =>
    match msgs.getLast? with
    | some lastMsg =>
      (msgs, { s with cursors := upsertCursor s.cursors a ch lastMsg.id now })
    | none => (msgs, s)
  | none => (msgs, s)

/-- `DELETE FROM messages WHERE expires_at IS NOT NULL AND expires_at <
datetime('now')`; returns the deleted count. -/
def cleanExpired (now : Nat) (s : Store) : Nat × Store :=
  let expired : Msg → Bool := fun m =>
    match m.expires_at with
    | some e => decide (e < now)
    | none => false
  ((s.messages.filter expired).length,
   { s with messages := s.messages.filter fun m => !(expired m) })

/-- `shareContext(channel, sender, key, value)`: a `context` message with
payload `{key, value}` and TTL 120 minutes. -/
def shareContext (now : Nat) (ch sender key : String) (value : JVal)
    (s : Store) : Except String (Nat × Store) :=
  postMessage now
    ⟨some ch, some sender, none, some "context",
     some (.jobj [("key", .jstr key), ("value", value)]), some 120⟩ s

/-- `parsed.key`, compared with `===` against the requested key (a
non-string or absent `key` field never matches). -/
def kvKey (v : JVal) : Option String :=
  match v with
  | .jobj fs =>
    match fs.lookup "key" with
    | some (.jstr k) => some k
    | _ => none
  | _ => none

/-- `parsed.value` (an absent field, JavaScript `undefined`, is modelled as
`jnull`). -/
def kvValue (v : JVal) : JVal :=
  match v with
  | .jobj fs => (fs.lookup "value").getD .jnull
  | _ => .jnull

/-- The non-expired `context` messages of a channel, newest first — the
query both branches of `getContext` run (`LIMIT 1` and `LIMIT 20`). -/
def ctxMsgs (now : Nat) (ch : String) (s : Store) : List Msg :=
  orderByCreatedDesc (s.messages.filter fun m =>
    m.channel == ch && m.type == "context" && notExpired now m)

/-- The scan loop of `getContext` over the 20 newest context messages; a
parse failure anywhere aborts to the surrounding catch (null). -/
def scanCtx (key : String) : List Msg → Option JVal
  | [] => none
  | m :: rest =>
    match parsePayload m.payload with
    | none => none
    | some v => if kvKey v = some key then some (kvValue v) else scanCtx key rest

/-- `getContext(channel, key)`: check the single newest context message
first; on a key mismatch, scan the 20 newest. -/
def getContext (now : Nat) (ch key : String) (s : Store) : Option JVal :=
  match (ctxMsgs now ch s).head? with
  | none => none
  | some m0 =>
    match parsePayload m0.payload with
    | none => none
    | some v0 =>
      if kvKey v0 = some key then some (kvValue v0)
      else scanCtx key ((ctxMsgs now ch s).take 20)

/-- Message-bus operation alphabet. -/
inductive BOp where
  | post (now : Nat) (a : PostArgs)
  | read (now : Nat) (ch : String) (o : ReadOpts)
  | clean (now : Nat)
deriving DecidableEq

/-- One bus operation; a throwing `postMessage` leaves the store unchanged. -/
def bstep (s : Store) : BOp → Store
  | .post now a =>
    match postMessage now a s with
    | .ok r => r.2
    | .error _ => s
  | .read now ch o => (readMessages now ch o s).2
  | .clean now => (cleanExpired now s).2

/-- Run a sequence of bus operations. -/
def bsteps (s : Store) (ops : List BOp) : Store :=
  ops.foldl bstep s

/-- Insertion-order well-formedness: ids strictly increase and timestamps
never decrease along the table (ids come from one counter, timestamps from
one clock). -/
abbrev StoreOrdered (s : Store) : Prop :=
  List.Pairwise (fun m1 m2 => m1.id < m2.id ∧ m1.created_at ≤ m2.created_at)
    s.messages

/-- The skip invariant of C10: agent `a`'s cursor on channel `c` exists and
sits strictly above rowid `r`. -/
def SkipInv (a c : String) (r : Nat) (s : Store) : Prop :=
  ∃ cid, cursorFor s.cursors a c = some cid ∧ r < cid

def dataArgs (p : String) : PostArgs :=
  ⟨some "c", some "s", none, none, some (.jstr p), none⟩

def c4Store : Store :=
  bsteps emptyStore [.post 1 (dataArgs "M1"), .post 2 (dataArgs "M2"),
    .post 3 (dataArgs "M3")]

def c4Read : ReadOpts := ⟨some "a", none, none, none⟩

/-- The context key a message carries (when its payload parses). -/
def msgKey (m : Msg) : Option String :=
  match parsePayload m.payload with
  | some v => kvKey v
  | none => none

/-- The context value a message carries. -/
def msgVal (m : Msg) : JVal :=
  match parsePayload m.payload with
  | some v => kvValue v
  | none => .jnull

/-- Second store of the C4 witness: the first read's post-state plus one
posted message M4. -/
def c4s2w : Store :=
  bstep (readMessages 4 "c" c4Read c4Store).2 (.post 6 (dataArgs "M4"))

/-- The row appended between the two C4 witness reads. -/
def c4TailW : List Msg :=
  [⟨3, "c", "s", none, "data", .text "M4", 6, none⟩]

/-- Run `shareContext` for its post-state (it cannot throw on these
inputs). -/
def shareStep (now : Nat) (ch sd key : String) (v : JVal) (s : Store) :
    Store :=
  ((shareContext now ch sd key v s).toOption.map (·.2)).getD s

/-- One `shareContext("c","s","k","v1")`. -/
def c7Store1 : Store := shareStep 1 "c" "s" "k" (.jstr "v1") emptyStore

/-- Overwrite: `shareContext("c","s","k","v2")` on top of `c7Store1`. -/
def c7Store2 : Store := shareStep 3 "c" "s" "k" (.jstr "v2") c7Store1

/-- The newest matching row of `c7Store2` (id 1, TTL 120 min from t=3). -/
def c7KRow2 : Msg :=
  ⟨1, "c", "s", none, "context",
   .json (.jobj [("key", .jstr "k"), ("value", .jstr "v2")]), 3,
   some (3 + 120 * 60000)⟩

/-- A `context` post with the given key (payload `{key, value:"x"}`,
TTL 120), as `shareContext` produces. -/
def ctxPost (now : Nat) (key : String) : BOp :=
  .post now ⟨some "c", some "s", none, some "context",
    some (.jobj [("key", .jstr key), ("value", .jstr "x")]), some 120⟩

/-- C7 counterexample store: one context message with key `k`, then 21
newer context messages with a different key on the same channel. -/
def c7CexStore : Store :=
  bsteps emptyStore
    (ctxPost 0 "k" :: (List.range 21).map fun i => ctxPost (i + 1) "other")

/-- Store after posting one message with `ttlMinutes = 0`. -/
def c8Store : Store :=
  ((postMessage 0 ⟨some "c", some "s", none, none, some (.jstr "p"), some 0⟩
    emptyStore).toOption.map (·.2)).getD emptyStore

/-- Store after posting one `context` message with `ttlMinutes = 0`. -/
def c8CtxStore : Store :=
  ((postMessage 0 ⟨some "c", some "s", none, some "context",
    some (.jobj [("key", .jstr "k"), ("value", .jstr "v")]), some 0⟩
    emptyStore).toOption.map (·.2)).getD emptyStore

/-- C10 witness store: a `data` message then a `signal` message. -/
def c10Store : Store :=
  bsteps emptyStore [.post 1 (dataArgs "M1"),
    .post 2 ⟨some "c", some "s", none, some "signal",
      some (.jstr "M2"), none⟩]

/-- The C10 witness read options: agent `a`, type filter `signal`. -/
def c10ReadSig : ReadOpts := ⟨some "a", some "signal", none, none⟩

/-- The data row of `c10Store` (skipped by the filtered read). -/
def c10M1 : Msg := ⟨0, "c", "s", none, "data", .text "M1", 1, none⟩

/-- The signal row of `c10Store` (delivered, advancing the cursor). -/
def c10M2 : Msg := ⟨1, "c", "s", none, "signal", .text "M2", 2, none⟩

end BUS


namespace RT

/-- A JavaScript regex line terminator (`.` matches anything else). -/
def isLineTerm (c : Char) : Bool :=
  c = '\n' || c = '\r' || c = ' ' || c = ' '

/-- The `rate.?limit` alternative of the transient-error regex over the
lower-cased message. -/
def rateLimitHit (l : List Char) : Bool :=
  l.tails.any fun t =>
    ("rate").data.isPrefixOf t &&
    (("limit").data.isPrefixOf (t.drop 4) ||
      (match t.drop 4 with
       | c :: rest2 => !(isLineTerm c) && ("limit").data.isPrefixOf rest2
       | [] => false))

/-- `/timeout|ETIMEDOUT|rate.?limit|429|503|ECONNRESET/i.test(err.message)`
(`task-decomposer.js`, executeDecomposed). -/
def isTransient (msg : String) : Bool :=
  let l := MU.lowerStr msg.data
  MU.containsSub ("timeout").data l ||
    MU.containsSub ("etimedout").data l ||
    rateLimitHit l ||
    MU.containsSub ("429").data l ||
    MU.containsSub ("503").data l ||
    MU.containsSub ("econnreset").data l

instance : DecidableEq (Except String String) := fun a b =>
  match a, b with
  | .ok x, .ok y =>
    if h : x = y then isTrue (by rw [h])
    else isFalse fun e => h (by cases e; rfl)
  | .ok _, .error _ => isFalse fun e => Except.noConfusion e
  | .error _, .ok _ => isFalse fun e => Except.noConfusion e
  | .error x, .error y =>
    if h : x = y then isTrue (by rw [h])
    else isFalse fun e => h (by cases e; rfl)

/-- What one subtask attempt records: total attempts made, the backoff
delays awaited (in order), and the final outcome. -/
structure RetryTrace where
  attempts : Nat
  delays : List Nat
  outcome : Except String String
deriving DecidableEq, Repr

/-- The attempt is a transient failure. -/
def transientErr : Except String String → Bool
  | .error e => isTransient e
  | .ok _ => false

/-- The retry loop of `executeDecomposed` (`for attempt = 0..maxRetries`):
`out i` is the result of the i-th `routedLlm` call; a transient error with
`attempt < maxRetries` waits `1000·2^attempt` ms and retries, anything
else stops.  `remaining = maxRetries - attempt` counts the retries still
allowed, making the recursion structural. -/
def retryLoop (out : Nat → Except String String) (attempt : Nat)
    (delays : List Nat) : Nat → RetryTrace
  | 0 =>
    match out attempt with
    | .ok t => ⟨attempt + 1, delays, .ok t⟩
    | .error e => ⟨attempt + 1, delays, .error e⟩
  | r + 1 =>
    match out attempt with
    | .ok t => ⟨attempt + 1, delays, .ok t⟩
    | .error e =>
      if isTransient e then
        retryLoop out (attempt + 1) (delays ++ [1000 * 2 ^ attempt]) r
      else ⟨attempt + 1, delays, .error e⟩

/-- Run the whole retry loop from attempt 0 (`maxRetries` retries remain). -/
def execRetry (maxRetries : Nat) (out : Nat → Except String String) :
    RetryTrace :=
  retryLoop out 0 [] maxRetries

/-- The per-subtask slice of `executeDecomposed` after a successful claim:
mark running, run the retry loop, then `completeTask` with the text on
success or `failTask` with the last error. -/
def execSubtask (q : TQ.QState) (taskId : String) (maxRetries : Nat)
    (out : Nat → Except String String) (now : Nat) :
    TQ.QState × RetryTrace :=
  let q1 := TQ.markRunning taskId q
  let tr := execRetry maxRetries out
  match tr.outcome with
  | .ok text => (TQ.completeTask taskId text now q1, tr)
  | .error e => (TQ.failTask taskId e now q1, tr)

/-- The S5 stub: fail twice with HTTP 429, then succeed. -/
def c6Out : Nat → Except String String :=
  fun i => if i < 2 then .error "HTTP 429 rate_limit" else .ok "done"

/-- The backoff delays of `j` consecutive retries starting at `attempt`. -/
def delaysFrom (attempt : Nat) : Nat → List Nat
  | 0 => []
  | j + 1 => 1000 * 2 ^ attempt :: delaysFrom (attempt + 1) j

end RT

-- ===== Theorem section =====

namespace TQ

theorem mem_updateWhere {p : Task → Bool} {f : Task → Task} {s : QState}
    {u : Task} (h : u ∈ (updateWhere p f s).1) :
    ∃ t ∈ s, (p t = true ∧ u = f t) ∨ (p t = false ∧ u = t) := by
  unfold updateWhere at h
  simp only [List.mem_map] at h
  obtain ⟨t, ht, hu⟩ := h
  refine ⟨t, ht, ?_⟩
  by_cases hp : p t
  · left; exact ⟨hp, by simp [hp] at hu; exact hu.symm⟩
  · right
    refine ⟨by simpa using hp, ?_⟩
    simp [hp] at hu
    exact hu.symm

theorem claimLoop_state (agent : String) (now : Nat) (s : QState) :
    ∀ l, (claimLoop agent now s l).2 = s ∨
      ∃ i, (claimLoop agent now s l).2 =
        (updateWhere (isPendingWithId i) (claimedRow agent now) s).1
  | [] => Or.inl rfl
  | cand :: rest => by
    unfold claimLoop
    by_cases hd : depsOk s cand.swarm_id cand.metadata
    · simp only [hd, if_true]
      by_cases hz :
          (updateWhere (isPendingWithId cand.id) (claimedRow agent now) s).2 = 0
      · simp only [hz, if_true]
        exact claimLoop_state agent now s rest
      · simp only [hz, if_false]
        exact Or.inr ⟨cand.id, rfl⟩
    · simp only [hd, if_false]
      exact claimLoop_state agent now s rest

theorem claimTask_state (sid agent : String) (cd : Bool) (now : Nat)
    (s : QState) :
    (claimTask sid agent cd now s).2 = s ∨
      ∃ i, (claimTask sid agent cd now s).2 =
        (updateWhere (isPendingWithId i) (claimedRow agent now) s).1 := by
  unfold claimTask
  by_cases hcd : cd
  · simp only [hcd, if_true]
    exact claimLoop_state agent now s _
  · simp only [hcd, if_false]
    unfold claimTaskNoDeps
    cases hh : (sortBySeq (s.filter fun t =>
        t.swarm_id == sid && t.status == Status.pending)).head? with
    | none => exact Or.inl rfl
    | some cand =>
      unfold tryClaimCand
      simp only
      by_cases hz :
          (updateWhere (isPendingWithId cand.id) (claimedRow agent now) s).2 = 0
      · simp only [hz, if_true]
        exact Or.inl rfl
      · simp only [hz, if_false]
        exact Or.inr ⟨cand.id, rfl⟩

theorem createSwarm_step (sid : String) (inputs : List TaskInput) (now : Nat)
    (s : QState) :
    (createSwarm sid inputs now s).toOption.getD s = s ∨
      (createSwarm sid inputs now s).toOption.getD s =
        s ++ inputs.enum.map fun p => mkTaskRow sid now p.1 p.2 := by
  unfold createSwarm
  simp only []
  split
  · exact Or.inr rfl
  · exact Or.inl rfl

theorem nonTerminal_of_guard {s : QState} {t : Task} {id : String}
    (ht : t ∈ s) (hid : t.id = id)
    (hg : (s.all fun t =>
      !(t.id == id) || !(t.status == Status.done || t.status == Status.failed))
      = true) :
    ¬ (t.status = .done ∨ t.status = .failed) := by
  rw [List.all_eq_true] at hg
  have h2 := hg t ht
  rw [hid] at h2
  simp only [beq_self_eq_true, Bool.not_true, Bool.false_or,
    Bool.not_eq_true', Bool.or_eq_false_iff, beq_eq_false_iff_ne] at h2
  rintro (h | h)
  · exact h2.1 h
  · exact h2.2 h

theorem compOk_step {s : QState} {op : QOp}
    (hs : ∀ t ∈ s, CompOk t) (hg : guardOk s op = true) :
    ∀ u ∈ step s op, CompOk u := by
  intro u hu
  cases op with
  | create sid inputs now =>
    simp only [step] at hu
    rcases createSwarm_step sid inputs now s with hst | hst
    · rw [hst] at hu; exact hs u hu
    · rw [hst] at hu
      rcases List.mem_append.mp hu with h | h
      · exact hs u h
      · simp only [List.mem_map] at h
        obtain ⟨p, _, rfl⟩ := h
        simp [CompOk, mkTaskRow]
  | claim sid agent cd now =>
    simp only [step] at hu
    rcases claimTask_state sid agent cd now s with hst | ⟨i, hst⟩
    · rw [hst] at hu; exact hs u hu
    · rw [hst] at hu
      rcases mem_updateWhere hu with ⟨t, ht, ⟨hp, rfl⟩ | ⟨_, rfl⟩⟩
      · have hpend : t.status = .pending := by
          simp only [isPendingWithId, Bool.and_eq_true, beq_iff_eq] at hp
          exact hp.2
        have hiff := hs t ht
        simp only [CompOk, hpend] at hiff
        have hc : t.completed_at = none := by
          by_contra hne
          rcases hiff.mp hne with h | h <;> exact Status.noConfusion h
        simp [CompOk, claimedRow, hc]
      · exact hs _ ht
  | run id =>
    simp only [step] at hu
    unfold markRunning at hu
    rcases mem_updateWhere hu with ⟨t, ht, ⟨hp, rfl⟩ | ⟨_, rfl⟩⟩
    · have hid : t.id = id := by simpa [beq_iff_eq] using hp
      have hterm := nonTerminal_of_guard ht hid hg
      have hc : t.completed_at = none := by
        by_contra hne
        exact hterm ((hs t ht).mp hne)
      simp [CompOk, hc]
    · exact hs _ ht
  | complete id result now =>
    simp only [step] at hu
    unfold completeTask at hu
    rcases mem_updateWhere hu with ⟨t, ht, ⟨_, rfl⟩ | ⟨_, rfl⟩⟩
    · simp [CompOk]
    · exact hs _ ht
  | fail id err now =>
    simp only [step] at hu
    unfold failTask at hu
    rcases mem_updateWhere hu with ⟨t, ht, ⟨_, rfl⟩ | ⟨_, rfl⟩⟩
    · simp [CompOk]
    · exact hs _ ht
  | reset id =>
    simp only [step] at hu
    unfold resetTask at hu
    rcases mem_updateWhere hu with ⟨t, ht, ⟨hp, rfl⟩ | ⟨_, rfl⟩⟩
    · have hid : t.id = id := by simpa [beq_iff_eq] using hp
      have hterm := nonTerminal_of_guard ht hid hg
      have hc : t.completed_at = none := by
        by_contra hne
        exact hterm ((hs t ht).mp hne)
      simp [CompOk, hc]
    · exact hs _ ht

theorem okTrace_inv : ∀ (ops : List QOp) (s : QState),
    (∀ t ∈ s, CompOk t) → okTrace s ops = true →
    ∀ t ∈ runOps s ops, CompOk t
  | [], s, hs, _ => by simpa [runOps] using hs
  | op :: ops, s, hs, h => by
    simp only [okTrace, Bool.and_eq_true] at h
    have ih := okTrace_inv ops (step s op) (compOk_step hs h.1) h.2
    simpa [runOps, List.foldl] using ih

theorem pendingId_updateWhere {j agent : String} {now : Nat} {s : QState}
    {id : String}
    (h : PendingId (updateWhere (isPendingWithId j) (claimedRow agent now) s).1
      id) : PendingId s id := by
  obtain ⟨u, hu, huid, hupend⟩ := h
  rcases mem_updateWhere hu with ⟨t, ht, ⟨_, rfl⟩ | ⟨_, rfl⟩⟩
  · exact absurd hupend (by simp [claimedRow])
  · exact ⟨u, ht, huid, hupend⟩

theorem not_pendingId_after {j agent : String} {now : Nat} {s : QState} :
    ¬ PendingId (updateWhere (isPendingWithId j) (claimedRow agent now) s).1
      j := by
  rintro ⟨u, hu, huid, hupend⟩
  rcases mem_updateWhere hu with ⟨t, ht, ⟨_, rfl⟩ | ⟨hp, rfl⟩⟩
  · exact absurd hupend (by simp [claimedRow])
  · rw [isPendingWithId, huid, hupend] at hp
    simp at hp

theorem claimLoop_success {agent : String} {now : Nat} {s : QState}
    {t : Task} :
    ∀ {l : List Task}, (claimLoop agent now s l).1 = some t →
    (claimLoop agent now s l).2 =
        (updateWhere (isPendingWithId t.id) (claimedRow agent now) s).1 ∧
      0 < s.countP (isPendingWithId t.id)
  | [], h => by simp [claimLoop] at h
  | cand :: rest, h => by
    unfold claimLoop at h ⊢
    by_cases hd : depsOk s cand.swarm_id cand.metadata
    · simp only [hd, if_true] at h ⊢
      by_cases hz :
          (updateWhere (isPendingWithId cand.id) (claimedRow agent now) s).2 = 0
      · simp only [hz, if_true] at h ⊢
        exact claimLoop_success h
      · simp only [hz, if_false] at h ⊢
        have hid : t.id = cand.id := by
          have := List.find?_some h
          simpa [beq_iff_eq] using this
        rw [hid]
        refine ⟨rfl, ?_⟩
        have : (updateWhere (isPendingWithId cand.id) (claimedRow agent now) s).2
            = s.countP (isPendingWithId cand.id) := rfl
        omega
    · simp only [hd, if_false] at h ⊢
      exact claimLoop_success h

theorem tryClaimCand_success {agent : String} {now : Nat} {s : QState}
    {t : Task} :
    ∀ {c : Option Task}, (tryClaimCand agent now s c).1 = some t →
    (tryClaimCand agent now s c).2 =
        (updateWhere (isPendingWithId t.id) (claimedRow agent now) s).1 ∧
      0 < s.countP (isPendingWithId t.id)
  | none, h => by simp [tryClaimCand] at h
  | some cand, h => by
    unfold tryClaimCand at h ⊢
    simp only at h ⊢
    by_cases hz :
        (updateWhere (isPendingWithId cand.id) (claimedRow agent now) s).2 = 0
    · simp only [hz, if_true] at h; simp at h
    · simp only [hz, if_false] at h ⊢
      have hid : t.id = cand.id := by
        have := List.find?_some h
        simpa [beq_iff_eq] using this
      rw [hid]
      refine ⟨rfl, ?_⟩
      have : (updateWhere (isPendingWithId cand.id) (claimedRow agent now) s).2
          = s.countP (isPendingWithId cand.id) := rfl
      omega

theorem claimTask_success {sid agent : String} {cd : Bool} {now : Nat}
    {s : QState} {t : Task}
    (h : (claimTask sid agent cd now s).1 = some t) :
    (claimTask sid agent cd now s).2 =
        (updateWhere (isPendingWithId t.id) (claimedRow agent now) s).1 ∧
      0 < s.countP (isPendingWithId t.id) := by
  unfold claimTask at h ⊢
  by_cases hcd : cd
  · simp only [hcd, if_true] at h ⊢
    exact claimLoop_success h
  · simp only [hcd, if_false] at h ⊢
    unfold claimTaskNoDeps at h ⊢
    exact tryClaimCand_success h

theorem pendingId_of_success {sid agent : String} {cd : Bool} {now : Nat}
    {s : QState} {t : Task}
    (h : (claimTask sid agent cd now s).1 = some t) : PendingId s t.id := by
  obtain ⟨-, hpos⟩ := claimTask_success h
  obtain ⟨u, hu, hp⟩ := List.countP_pos_iff.mp hpos
  simp only [isPendingWithId, Bool.and_eq_true, beq_iff_eq] at hp
  exact ⟨u, hu, hp.1, hp.2⟩

theorem pendingId_claimTask {sid agent : String} {cd : Bool} {now : Nat}
    {s : QState} {id : String}
    (h : PendingId (claimTask sid agent cd now s).2 id) : PendingId s id := by
  rcases claimTask_state sid agent cd now s with hst | ⟨j, hst⟩
  · rwa [hst] at h
  · rw [hst] at h
    exact pendingId_updateWhere h

theorem returnedIds_pending : ∀ (cs : List (String × String × Bool × Nat))
    (s : QState) (id : String),
    id ∈ returnedIds (claimsSeq s cs).1 → PendingId s id
  | [], s, id, h => by simp [claimsSeq, returnedIds] at h
  | c :: cs, s, id, h => by
    simp only [claimsSeq, returnedIds, List.filterMap_cons] at h
    cases hr : (claimTask c.1 c.2.1 c.2.2.1 c.2.2.2 s).1 with
    | none =>
      rw [hr] at h
      simp only [Option.map_none'] at h
      exact pendingId_claimTask (returnedIds_pending cs _ id h)
    | some t =>
      rw [hr] at h
      simp only [Option.map_some', List.mem_cons] at h
      rcases h with rfl | h
      · exact pendingId_of_success hr
      · exact pendingId_claimTask (returnedIds_pending cs _ id h)

theorem claims_nodup : ∀ (cs : List (String × String × Bool × Nat))
    (s : QState), (returnedIds (claimsSeq s cs).1).Nodup
  | [], s => by simp [claimsSeq, returnedIds]
  | c :: cs, s => by
    simp only [claimsSeq, returnedIds, List.filterMap_cons]
    cases hr : (claimTask c.1 c.2.1 c.2.2.1 c.2.2.2 s).1 with
    | none =>
      simp only [Option.map_none']
      exact claims_nodup cs _
    | some t =>
      simp only [Option.map_some', List.nodup_cons]
      refine ⟨?_, claims_nodup cs _⟩
      intro hmem
      have hpend := returnedIds_pending cs _ t.id hmem
      obtain ⟨hst, -⟩ := claimTask_success hr
      rw [hst] at hpend
      exact not_pendingId_after hpend

end TQ

namespace TQ

/-- C1 counterexample: `resetTask` has no guard on terminal statuses.  After
create–claim–complete the task is `done`; a subsequent `resetTask` moves it
back to `pending` while `completed_at` stays set, so both halves of the
claimed invariant fail on this reachable row. -/
theorem c1_reset_terminal_counterexample :
    (findById (runOps [] c1Ops) "s-task-0").map (·.status)
        = some Status.done ∧
    (findById (resetTask "s-task-0" (runOps [] c1Ops)) "s-task-0").map
        (·.status) = some Status.pending ∧
    (findById (resetTask "s-task-0" (runOps [] c1Ops)) "s-task-0").map
        (·.completed_at) = some (some 2) := by
  decide

/-- C1 (amended): `claimTask` never modifies a row that is not `pending`
(in particular it never touches a `done`/`failed` row), and along any
operation sequence in which `markRunning` and `resetTask` are only applied
to non-terminal rows, every reachable row satisfies
`completed_at ≠ null ↔ status ∈ {done, failed}`. -/
theorem c1_completed_at_invariant_amended :
    (∀ (sid agent : String) (cd : Bool) (now : Nat) (s : QState) (i : Nat)
        (t : Task), s.get? i = some t → t.status ≠ .pending →
        ((claimTask sid agent cd now s).2).get? i = some t) ∧
    (∀ ops : List QOp, okTrace [] ops = true →
        ∀ t ∈ runOps [] ops, CompOk t) := by
  constructor
  · intro sid agent cd now s i t hget hnp
    rcases claimTask_state sid agent cd now s with hst | ⟨j, hst⟩
    · rw [hst, hget]
    · rw [hst]
      unfold updateWhere
      rw [List.get?_map, hget]
      have hfalse : isPendingWithId j t = false := by
        simp only [isPendingWithId, Bool.and_eq_false_iff]
        right
        simpa [beq_eq_false_iff_ne] using hnp
      simp [hfalse]
  · intro ops h
    exact okTrace_inv ops [] (by simp) h

/-- Witness for C1 (amended): a concrete guarded trace satisfying the
invariant, and a concrete `done` row untouched by `claimTask`. -/
theorem c1_witness :
    (okTrace [] c1WitnessOps = true ∧
      ∀ t ∈ runOps [] c1WitnessOps, CompOk t) ∧
    (([c1DoneTask].get? 0 = some c1DoneTask ∧ c1DoneTask.status ≠ .pending) ∧
      ((claimTask "s" "w" false 5 [c1DoneTask]).2).get? 0 = some c1DoneTask) :=
  ⟨⟨by decide, c1_completed_at_invariant_amended.2 c1WitnessOps (by decide)⟩,
   ⟨⟨by decide, by decide⟩,
    c1_completed_at_invariant_amended.1 "s" "w" false 5 [c1DoneTask] 0
      c1DoneTask (by decide) (by decide)⟩⟩

/-- C2: claim atomicity.  In general, over any state and any sequence of
`claimTask` calls (with or without `checkDeps`), the handed-out task ids are
pairwise distinct — each pending task is returned to at most one caller.
Concretely (scenario S3): with 3 pending tasks and 5 claim attempts, the
first 3 attempts return `s-task-0`, `s-task-1`, `s-task-2`, each returned
row has status `claimed`, and the remaining 2 attempts return none. -/
theorem c2_claim_atomicity :
    (∀ (cs : List (String × String × Bool × Nat)) (s : QState),
      (returnedIds (claimsSeq s cs).1).Nodup) ∧
    ((claimsSeq c2State c2Calls).1.map (fun o => o.map (·.id))
        = [some "s-task-0", some "s-task-1", some "s-task-2", none, none] ∧
      ((claimsSeq c2State c2Calls).1.filterMap id).map (·.status)
        = [.claimed, .claimed, .claimed]) :=
  ⟨fun cs s => claims_nodup cs s, by decide, by decide⟩

end TQ

namespace MU

theorem lowerStr_append (a b : JStr) :
    lowerStr (a ++ b) = lowerStr a ++ lowerStr b :=
  List.map_append lowerChar a b

theorem strip_anthropic (m : JStr) :
    stripProvider (("anthropic/").data ++ m) = m := by
  unfold stripProvider
  have hlow : lowerStr (("anthropic/").data ++ m)
      = ("anthropic/").data ++ lowerStr m := by
    rw [lowerStr, List.map_append]
    rfl
  rw [hlow]
  rw [if_pos]
  · exact List.drop_left (("anthropic/").data) m
  · exact List.take_left (("anthropic/").data) (lowerStr m)

theorem strip_codex (m : JStr) :
    stripProvider (("openai-codex/").data ++ m) = m := by
  unfold stripProvider
  have hlow : lowerStr (("openai-codex/").data ++ m)
      = ("openai-codex/").data ++ lowerStr m := by
    rw [lowerStr, List.map_append]
    rfl
  rw [hlow]
  rw [if_neg, if_pos]
  · exact List.drop_left (("openai-codex/").data) m
  · exact List.take_left (("openai-codex/").data) (lowerStr m)
  · intro h
    have h0 : ('o' : Char) = 'a' := congrArg (fun l => l.getD 0 ' ') h
    exact absurd h0 (by decide)

theorem strip_openai (m : JStr) :
    stripProvider (("openai/").data ++ m) = m := by
  unfold stripProvider
  have hlow : lowerStr (("openai/").data ++ m)
      = ("openai/").data ++ lowerStr m := by
    rw [lowerStr, List.map_append]
    rfl
  rw [hlow]
  rw [if_neg, if_neg, if_pos]
  · exact List.drop_left (("openai/").data) m
  · exact List.take_left (("openai/").data) (lowerStr m)
  · intro h
    have h6 : ('/' : Char) = '-' := congrArg (fun l => l.getD 6 ' ') h
    exact absurd h6 (by decide)
  · intro h
    have h0 : ('o' : Char) = 'a' := congrArg (fun l => l.getD 0 ' ') h
    exact absurd h0 (by decide)

end MU

namespace MU

/-- C3 counterexample: after stripping the provider form,
`claude-sonnet-4` is not a key of the canonical alias set, so
`normalizeModel "anthropic/claude-sonnet-4"` yields `claude-sonnet-4`,
not `claude-sonnet-4-5` as the claim states. -/
theorem c3_alias_counterexample :
    normalizeModel (("anthropic/claude-sonnet-4").data)
        = ("claude-sonnet-4").data ∧
    ("claude-sonnet-4").data ≠ ("claude-sonnet-4-5").data := by
  decide

/-- C3 (amended): each provider-prefix form (`anthropic/`, `openai/`,
`openai-codex/`) is stripped before alias lookup; `runLlm` with model
`anthropic/claude-sonnet-4` resolves to `claude-sonnet-4` (the stripped
name has no alias entry) with detected provider `anthropic`, and `codex`
resolves to `gpt-5.3-codex`. -/
theorem c3_normalize_amended :
    (∀ m : JStr, normalizeModel (("anthropic/").data ++ m) = resolveAlias m) ∧
    (∀ m : JStr, normalizeModel (("openai/").data ++ m) = resolveAlias m) ∧
    (∀ m : JStr,
      normalizeModel (("openai-codex/").data ++ m) = resolveAlias m) ∧
    runLlmRoute (("anthropic/claude-sonnet-4").data)
        = (("claude-sonnet-4").data, some "anthropic") ∧
    normalizeModel (("codex").data) = ("gpt-5.3-codex").data := by
  refine ⟨?_, ?_, ?_, by decide, by decide⟩
  · intro m
    rw [normalizeModel, strip_anthropic]
  · intro m
    rw [normalizeModel, strip_openai]
  · intro m
    rw [normalizeModel, strip_codex]

end MU

namespace SR

open REG

theorem cheapest_eq_fastest :
    ∀ l ∈ getAllModels.sublists,
      getCheapestModel l = getFastestModel l := by
  decide

theorem resolveCandidates_sublist (capability : Option String) :
    (resolveCandidates capability).Sublist getAllModels := by
  unfold resolveCandidates
  cases capability with
  | none => simp
  | some c =>
    simp only
    split
    · simp
    · exact List.Sublist.map _ (List.filter_sublist AGENT_REGISTRY)

/-- C5: with no reliable recent stats, the `fastest` strategy returns the
pool model with the lowest `defaultTimeoutMs` from the registry, falling
back to `claude-haiku-4-5` only when that lookup yields none.  The source
line calls `getCheapestModel` here, but on this registry `costTier` and
`defaultTimeoutMs` are strictly order-correlated, so the scan returns the
registry-fastest model for every reachable candidate pool. -/
theorem c5_fastest_fallback :
    ∀ (capability : Option String) (stats : List Stat),
      (resolveCandidates capability).filter (reliableFor stats) = [] →
      resolveModel (some "fastest") capability none stats
        = (getFastestModel (resolveCandidates capability)).getD
            "claude-haiku-4-5" := by
  intro capability stats hrel
  unfold resolveModel
  rw [if_neg (by simp)]
  simp only [hrel]
  have hsub := resolveCandidates_sublist capability
  have hkey := cheapest_eq_fastest (resolveCandidates capability)
    (List.mem_sublists.mpr hsub)
  simp only [pickMinBy, hkey]

/-- Witness for C5: the `multimodal` pool with an empty stats snapshot
resolves to `gpt-4o`, the registry-fastest of that pool. -/
theorem c5_witness :
    ((resolveCandidates (some "multimodal")).filter (reliableFor []) = []) ∧
    resolveModel (some "fastest") (some "multimodal") none []
        = (getFastestModel (resolveCandidates (some "multimodal"))).getD
            "claude-haiku-4-5" ∧
    resolveModel (some "fastest") (some "multimodal") none [] = "gpt-4o" :=
  ⟨by decide,
   c5_fastest_fallback (some "multimodal") [] (by decide),
   by decide⟩

end SR

namespace BUS

theorem readMessages_fst (now : Nat) (ch : String) (o : ReadOpts)
    (s : Store) :
    (readMessages now ch o s).1 = (orderByCreatedAsc (s.messages.filter
      (readPred s now ch o))).take (limOf o) := by
  unfold readMessages
  cases o.agentId with
  | none => rfl
  | some a =>
    simp only
    split <;> rfl

theorem readMessages_messages (now : Nat) (ch : String) (o : ReadOpts)
    (s : Store) :
    (readMessages now ch o s).2.messages = s.messages ∧
    (readMessages now ch o s).2.nextId = s.nextId := by
  unfold readMessages
  cases o.agentId with
  | none => exact ⟨rfl, rfl⟩
  | some a =>
    simp only
    split <;> exact ⟨rfl, rfl⟩

theorem mem_read_pred {now : Nat} {ch : String} {o : ReadOpts} {s : Store}
    {m : Msg} (hm : m ∈ (readMessages now ch o s).1) :
    readPred s now ch o m = true ∧ m ∈ s.messages := by
  rw [readMessages_fst] at hm
  have h1 : m ∈ orderByCreatedAsc (s.messages.filter (readPred s now ch o)) :=
    List.take_subset _ _ hm
  have h2 : m ∈ s.messages.filter (readPred s now ch o) :=
    (List.perm_insertionSort _ _).mem_iff.mp h1
  have h3 := List.mem_filter.mp h2
  exact ⟨h3.2, h3.1⟩

theorem cursorFor_upsert_self :
    ∀ (cs : List Cursor) (a ch : String) (id now : Nat),
    cursorFor (upsertCursor cs a ch id now) a ch = some id
  | [], a, ch, id, now => by simp [upsertCursor, cursorFor, List.find?]
  | c :: cs, a, ch, id, now => by
    unfold upsertCursor
    by_cases h : c.agent == a && c.channel == ch
    · rw [if_pos h]
      simp [cursorFor, List.find?]
    · rw [if_neg h]
      unfold cursorFor at *
      rw [List.find?_cons_of_neg _ (by simpa using h)]
      exact cursorFor_upsert_self cs a ch id now

theorem cursorFor_upsert_other :
    ∀ (cs : List Cursor) (a ch a' ch' : String) (id now : Nat),
    ¬(a' = a ∧ ch' = ch) →
    cursorFor (upsertCursor cs a ch id now) a' ch' = cursorFor cs a' ch'
  | [], a, ch, a', ch', id, now, hne => by
    have hfalse : (a == a' && ch == ch') = false := by
      rw [Bool.and_eq_false_iff]
      rcases Classical.em (a = a') with h1 | h1
      · right
        exact beq_eq_false_iff_ne.mpr fun hc => hne ⟨h1.symm, hc.symm⟩
      · left
        exact beq_eq_false_iff_ne.mpr h1
    unfold upsertCursor cursorFor
    rw [List.find?_cons_of_neg _ (by simp [hfalse])]
  | c :: cs, a, ch, a', ch', id, now, hne => by
    have hfalse : (a == a' && ch == ch') = false := by
      rw [Bool.and_eq_false_iff]
      rcases Classical.em (a = a') with h1 | h1
      · right
        exact beq_eq_false_iff_ne.mpr fun hc => hne ⟨h1.symm, hc.symm⟩
      · left
        exact beq_eq_false_iff_ne.mpr h1
    unfold upsertCursor
    by_cases h : c.agent == a && c.channel == ch
    · have hc : c.agent = a ∧ c.channel = ch := by simpa [beq_iff_eq] using h
      have holdf : (c.agent == a' && c.channel == ch') = false := by
        rw [hc.1, hc.2]
        exact hfalse
      rw [if_pos h]
      unfold cursorFor
      rw [List.find?_cons_of_neg _ (by simp [hfalse]),
        List.find?_cons_of_neg _ (by simp [holdf])]
    · rw [if_neg h]
      unfold cursorFor
      by_cases hcq : c.agent == a' && c.channel == ch'
      · simp only [List.find?, hcq]
      · have hcqf : (c.agent == a' && c.channel == ch') = false := by
          simpa using hcq
        simp only [List.find?, hcqf]
        exact cursorFor_upsert_other cs a ch a' ch' id now hne

theorem read_cursor_self {now : Nat} {ch : String} {o : ReadOpts} {s : Store}
    {a : String} {lst : Msg} (ha : o.agentId = some a)
    (hl : (readMessages now ch o s).1.getLast? = some lst) :
    cursorFor (readMessages now ch o s).2.cursors a ch = some lst.id := by
  rw [readMessages_fst] at hl
  unfold readMessages
  rw [ha]
  simp only
  rw [hl]
  exact cursorFor_upsert_self s.cursors a ch lst.id now

theorem result_pairwise {now : Nat} {ch : String} {o : ReadOpts} {s : Store}
    (hord : StoreOrdered s) :
    List.Pairwise (fun m1 m2 => m1.id < m2.id)
      ((readMessages now ch o s).1) := by
  rw [readMessages_fst]
  have hfil : List.Pairwise
      (fun m1 m2 => m1.id < m2.id ∧ m1.created_at ≤ m2.created_at)
      (s.messages.filter (readPred s now ch o)) :=
    hord.sublist (List.filter_sublist s.messages)
  have hsorted : List.Sorted (fun m1 m2 : Msg => m1.created_at ≤ m2.created_at)
      (s.messages.filter (readPred s now ch o)) :=
    hfil.imp fun h => h.2
  have heq : orderByCreatedAsc (s.messages.filter (readPred s now ch o))
      = s.messages.filter (readPred s now ch o) :=
    hsorted.insertionSort_eq
  rw [heq]
  exact (hfil.sublist (List.take_sublist _ _)).imp fun h => h.1

theorem last_max {lst : Msg} :
    ∀ {l : List Msg}, List.Pairwise (fun m1 m2 => m1.id < m2.id) l →
    l.getLast? = some lst → ∀ m ∈ l, m.id ≤ lst.id
  | [], _, hl, m, hm => by simp at hm
  | [x], _, hl, m, hm => by
    simp only [List.getLast?_singleton] at hl
    simp only [List.mem_singleton] at hm
    subst hm
    rw [Option.some_inj.mp hl]
  | x :: y :: rest, hp, hl, m, hm => by
    rw [List.getLast?_cons_cons] at hl
    rcases List.mem_cons.mp hm with rfl | hm2
    · have hlst : lst ∈ y :: rest := List.mem_of_getLast?_eq_some hl
      have := (List.pairwise_cons.mp hp).1 lst hlst
      omega
    · exact last_max (List.pairwise_cons.mp hp).2 hl m hm2

theorem findRowid_eq {msgs : List Msg} {cid r : Nat}
    (h : findRowid msgs cid = some r) : r = cid := by
  unfold findRowid at h
  cases hf : msgs.find? (·.id == cid) with
  | none => rw [hf] at h; simp at h
  | some m =>
    rw [hf] at h
    have := List.find?_some hf
    simp only [beq_iff_eq] at this
    simp only [Option.map_some'] at h
    rw [← Option.some_inj.mp h, this]

theorem pred_cursor_bound {s : Store} {now : Nat} {ch : String}
    {o : ReadOpts} {a : String} {m : Msg} {cid : Nat}
    (ha : o.agentId = some a) (hc : cursorFor s.cursors a ch = some cid)
    (hp : readPred s now ch o m = true) : cid < m.id := by
  unfold readPred at hp
  rw [ha] at hp
  simp only [Bool.and_eq_true] at hp
  have hag := hp.1.1.2.2
  rw [hc] at hag
  simp only at hag
  cases hf : findRowid s.messages cid with
  | none => rw [hf] at hag; simp at hag
  | some r =>
    rw [hf] at hag
    have hr := findRowid_eq hf
    simp only [decide_eq_true_eq] at hag
    omega

theorem c4_general (s s2 : Store) (now1 now2 : Nat) (ch a : String)
    (o1 o2 : ReadOpts) (l1 l2 : List Msg) (s1 s3 : Store) (tail : List Msg)
    (hord2 : StoreOrdered s2)
    (h1 : readMessages now1 ch o1 s = (l1, s1)) (ha1 : o1.agentId = some a)
    (hext : s2.messages = s1.messages ++ tail)
    (hcur : s2.cursors = s1.cursors)
    (h2 : readMessages now2 ch o2 s2 = (l2, s3)) (ha2 : o2.agentId = some a) :
    ∀ m1 ∈ l1, ∀ m2 ∈ l2, m1.id ≠ m2.id := by
  intro m1 hm1 m2 hm2
  have hl1eq : (readMessages now1 ch o1 s).1 = l1 := congrArg Prod.fst h1
  have hs1 : (readMessages now1 ch o1 s).2 = s1 := congrArg Prod.snd h1
  have hl2eq : (readMessages now2 ch o2 s2).1 = l2 := congrArg Prod.fst h2
  have hne : l1 ≠ [] := List.ne_nil_of_mem hm1
  obtain ⟨lst, hlst⟩ : ∃ lst, l1.getLast? = some lst := by
    cases hgl : l1.getLast? with
    | none => exact absurd (List.getLast?_eq_none.mp hgl) hne
    | some lst => exact ⟨lst, rfl⟩
  have hmsg1 : s1.messages = s.messages := by
    rw [← hs1]
    exact (readMessages_messages now1 ch o1 s).1
  have hords : StoreOrdered s := by
    unfold StoreOrdered at hord2 ⊢
    rw [hext, hmsg1] at hord2
    exact (List.pairwise_append.mp hord2).1
  have hp1 : List.Pairwise (fun a b => a.id < b.id) l1 := by
    rw [← hl1eq]
    exact result_pairwise hords
  have hmax : m1.id ≤ lst.id := last_max hp1 hlst m1 hm1
  have hcur1 : cursorFor s1.cursors a ch = some lst.id := by
    rw [← hs1]
    apply read_cursor_self ha1
    rw [hl1eq]
    exact hlst
  have hcur2 : cursorFor s2.cursors a ch = some lst.id := by
    rw [hcur]
    exact hcur1
  rw [← hl2eq] at hm2
  have hm2pred := (mem_read_pred hm2).1
  have hbound := pred_cursor_bound ha2 hcur2 hm2pred
  omega

theorem inv_read_bound {a c : String} {r : Nat} {s : Store} {now : Nat}
    {o : ReadOpts} (hinv : SkipInv a c r s) (ha : o.agentId = some a) :
    ∀ m' ∈ (readMessages now c o s).1, r < m'.id := by
  obtain ⟨cid, hc, hrc⟩ := hinv
  intro m' hm'
  have hp := (mem_read_pred hm').1
  have := pred_cursor_bound ha hc hp
  omega

theorem post_cursors {now : Nat} {a : PostArgs} {s : Store}
    {v : Nat × Store} (h : postMessage now a s = .ok v) :
    v.2.cursors = s.cursors := by
  unfold postMessage at h
  split at h
  · simp only [Except.ok.injEq] at h
    rw [← h]
  · exact Except.noConfusion h

theorem bstep_inv {a c : String} {r : Nat} {s : Store} {op : BOp}
    (hinv : SkipInv a c r s) : SkipInv a c r (bstep s op) := by
  obtain ⟨cid, hc, hrc⟩ := hinv
  cases op with
  | post now args =>
    simp only [bstep]
    cases hpost : postMessage now args s with
    | ok v =>
      exact ⟨cid, by rw [post_cursors hpost]; exact hc, hrc⟩
    | error e =>
      exact ⟨cid, hc, hrc⟩
  | clean now =>
    exact ⟨cid, hc, hrc⟩
  | read now ch' o' =>
    simp only [bstep]
    cases hag : o'.agentId with
    | none =>
      unfold readMessages
      rw [hag]
      exact ⟨cid, hc, hrc⟩
    | some a' =>
      cases hgl : ((orderByCreatedAsc (s.messages.filter
          (readPred s now ch' o'))).take (limOf o')).getLast? with
      | none =>
        unfold readMessages
        rw [hag]
        simp only
        rw [hgl]
        exact ⟨cid, hc, hrc⟩
      | some lm =>
        have hsnd : (readMessages now ch' o' s).2 =
            { s with cursors := upsertCursor s.cursors a' ch' lm.id now } := by
          unfold readMessages
          rw [hag]
          simp only
          rw [hgl]
        rw [hsnd]
        by_cases heq : a = a' ∧ c = ch'
        · obtain ⟨rfl, rfl⟩ := heq
          refine ⟨lm.id, cursorFor_upsert_self s.cursors a c lm.id now, ?_⟩
          have hlm : lm ∈ (readMessages now c o' s).1 := by
            rw [readMessages_fst]
            exact List.mem_of_getLast?_eq_some hgl
          exact inv_read_bound ⟨cid, hc, hrc⟩ hag lm hlm
        · exact ⟨cid, by
            rw [cursorFor_upsert_other s.cursors a' ch' a c lm.id now heq]
            exact hc, hrc⟩

theorem bsteps_inv {a c : String} {r : Nat} :
    ∀ (ops : List BOp) (s : Store), SkipInv a c r s →
    SkipInv a c r (bsteps s ops)
  | [], s, h => h
  | op :: ops, s, h => by
    simp only [bsteps, List.foldl]
    exact bsteps_inv ops (bstep s op) (bstep_inv h)

/-- C10: when `readMessages` runs with both an `agentId` and a `type`
filter, the agent's cursor advances to the last message returned under the
filter (first conjunct); consequently every earlier message on the channel
with a smaller rowid — in particular one of a different type never
delivered to that agent — is permanently skipped: whatever bus operations
follow, no cursor-based `readMessages` call with that `agentId` on that
channel ever returns it (second conjunct). -/
theorem c10_cursor_skip :
    ∀ (s : Store) (now1 : Nat) (c a : String) (o1 : ReadOpts)
      (l1 : List Msg) (s1 : Store) (lst m : Msg),
      readMessages now1 c o1 s = (l1, s1) → o1.agentId = some a →
      l1.getLast? = some lst → m.id < lst.id →
      cursorFor s1.cursors a c = some lst.id ∧
      ∀ (ops : List BOp) (now2 : Nat) (o2 : ReadOpts),
        o2.agentId = some a →
        ∀ m' ∈ (readMessages now2 c o2 (bsteps s1 ops)).1, m'.id ≠ m.id := by
  intro s now1 c a o1 l1 s1 lst m h1 ha1 hlst hr
  have hl1eq : (readMessages now1 c o1 s).1 = l1 := congrArg Prod.fst h1
  have hs1 : (readMessages now1 c o1 s).2 = s1 := congrArg Prod.snd h1
  have hcur1 : cursorFor s1.cursors a c = some lst.id := by
    rw [← hs1]
    apply read_cursor_self ha1
    rw [hl1eq]
    exact hlst
  refine ⟨hcur1, ?_⟩
  intro ops now2 o2 ha2 m' hm'
  have hinv : SkipInv a c m.id s1 := ⟨lst.id, hcur1, hr⟩
  have hinv2 := bsteps_inv ops s1 hinv
  have := inv_read_bound hinv2 ha2 m' hm'
  omega

theorem scan_eq_find (key : String) :
    ∀ l : List Msg, (∀ m ∈ l, (parsePayload m.payload).isSome = true) →
    scanCtx key l = (l.find? fun m => msgKey m == some key).map msgVal
  | [], _ => rfl
  | m :: rest, hall => by
    have hm := hall m (List.mem_cons_self m rest)
    obtain ⟨v, hv⟩ := Option.isSome_iff_exists.mp hm
    unfold scanCtx
    rw [hv]
    simp only
    by_cases hkey : kvKey v = some key
    · rw [if_pos hkey]
      have hpred : (msgKey m == some key) = true := by
        simp only [msgKey, hv, beq_iff_eq]
        exact hkey
      simp only [List.find?, hpred, Option.map_some', msgVal, hv]
    · rw [if_neg hkey]
      have hpred : (msgKey m == some key) = false := by
        simp only [msgKey, hv]
        exact beq_eq_false_iff_ne.mpr hkey
      simp only [List.find?, hpred]
      exact scan_eq_find key rest fun m' hm' =>
        hall m' (List.mem_cons_of_mem m hm')

theorem c7_general (now : Nat) (ch key : String) (s : Store) (m : Msg)
    (hall : ∀ m' ∈ (ctxMsgs now ch s).take 20,
      (parsePayload m'.payload).isSome = true)
    (hfind : ((ctxMsgs now ch s).take 20).find?
      (fun m' => msgKey m' == some key) = some m) :
    getContext now ch key s = some (msgVal m) := by
  cases hL : ctxMsgs now ch s with
  | nil =>
    rw [hL] at hfind
    simp at hfind
  | cons m0 rest =>
    rw [hL] at hfind hall
    have htake : (m0 :: rest).take 20 = m0 :: rest.take 19 := rfl
    rw [htake] at hfind hall
    have hm0 := hall m0 (List.mem_cons_self m0 (rest.take 19))
    obtain ⟨v0, hv0⟩ := Option.isSome_iff_exists.mp hm0
    unfold getContext
    rw [hL]
    simp only [List.head?_cons, hv0]
    by_cases hkey : kvKey v0 = some key
    · rw [if_pos hkey]
      have hpred : (msgKey m0 == some key) = true := by
        simp only [msgKey, hv0, beq_iff_eq]
        exact hkey
      simp only [List.find?, hpred] at hfind
      have hm0m : m0 = m := Option.some_inj.mp hfind
      subst hm0m
      simp only [msgVal, hv0]
    · rw [if_neg hkey]
      rw [htake]
      rw [scan_eq_find key (m0 :: rest.take 19) hall]
      rw [hfind]
      rfl

end BUS

namespace BUS

/-- C4: read-cursor no-overlap.  General part: for every store and agent,
the messages returned by a `readMessages` call with an `agentId` are
disjoint (by rowid) from those of any later call with the same agent on
the same channel, even after further messages are appended.  Concrete part
(scenario S7): after posting M1, M2, M3, a cursor read returns all three;
an immediate second read returns `[]`; after posting M4 the next read
returns exactly M4. -/
theorem c4_read_cursor_no_overlap :
    (∀ (s s2 : Store) (now1 now2 : Nat) (ch a : String) (o1 o2 : ReadOpts)
        (l1 l2 : List Msg) (s1 s3 : Store) (tail : List Msg),
      StoreOrdered s2 →
      readMessages now1 ch o1 s = (l1, s1) → o1.agentId = some a →
      s2.messages = s1.messages ++ tail → s2.cursors = s1.cursors →
      readMessages now2 ch o2 s2 = (l2, s3) → o2.agentId = some a →
      ∀ m1 ∈ l1, ∀ m2 ∈ l2, m1.id ≠ m2.id) ∧
    ((readMessages 4 "c" c4Read c4Store).1.map (·.id) = [0, 1, 2] ∧
      (readMessages 5 "c" c4Read (readMessages 4 "c" c4Read c4Store).2).1
        = [] ∧
      (readMessages 7 "c" c4Read
        (bstep (readMessages 5 "c" c4Read
          (readMessages 4 "c" c4Read c4Store).2).2
          (.post 6 (dataArgs "M4")))).1.map (·.id) = [3]) :=
  ⟨fun s s2 now1 now2 ch a o1 o2 l1 l2 s1 s3 tail hord2 h1 ha1 hext hcur
      h2 ha2 =>
    c4_general s s2 now1 now2 ch a o1 o2 l1 l2 s1 s3 tail hord2 h1 ha1
      hext hcur h2 ha2,
   by decide, by decide, by decide⟩

/-- Witness for C4: the S7 stores instantiate the general statement. -/
theorem c4_witness :
    (StoreOrdered c4s2w ∧ c4Read.agentId = some "a" ∧
      c4s2w.messages
        = (readMessages 4 "c" c4Read c4Store).2.messages ++ c4TailW ∧
      c4s2w.cursors = (readMessages 4 "c" c4Read c4Store).2.cursors) ∧
    (∀ m1 ∈ (readMessages 4 "c" c4Read c4Store).1,
      ∀ m2 ∈ (readMessages 7 "c" c4Read c4s2w).1, m1.id ≠ m2.id) :=
  ⟨⟨by decide, rfl, by decide, by decide⟩,
   c4_read_cursor_no_overlap.1 c4Store c4s2w 4 7 "c" "a" c4Read c4Read
     (readMessages 4 "c" c4Read c4Store).1
     (readMessages 7 "c" c4Read c4s2w).1
     (readMessages 4 "c" c4Read c4Store).2
     (readMessages 7 "c" c4Read c4s2w).2
     c4TailW (by decide) rfl rfl (by decide) (by decide) rfl rfl⟩

/-- C7 counterexample: `getContext` only scans the 20 newest context
messages; with 21 newer context messages under a different key on the
channel, a live matching message exists but `getContext` returns none. -/
theorem c7_scan_limit_counterexample :
    getContext 30 "c" "k" c7CexStore = none ∧
    ((ctxMsgs 30 "c" c7CexStore).find?
      (fun m' => msgKey m' == some "k")).isSome = true ∧
    (ctxMsgs 30 "c" c7CexStore).length = 22 := by
  decide

/-- C7 (amended): `getContext` returns the value of the newest non-expired
context message whose payload key matches, provided such a message is
among the 20 newest non-expired context messages of the channel (and those
parse).  In particular, immediately after `shareContext` the key reads
back, and overwriting a key returns the latest value. -/
theorem c7_getContext_amended :
    (∀ (now : Nat) (ch key : String) (s : Store) (m : Msg),
      (∀ m' ∈ (ctxMsgs now ch s).take 20,
        (parsePayload m'.payload).isSome = true) →
      ((ctxMsgs now ch s).take 20).find?
        (fun m' => msgKey m' == some key) = some m →
      getContext now ch key s = some (msgVal m)) ∧
    getContext 2 "c" "k" c7Store1 = some (.jstr "v1") ∧
    getContext 4 "c" "k" c7Store2 = some (.jstr "v2") :=
  ⟨c7_general, by decide, by decide⟩

/-- Witness for C7 (amended): the overwrite store instantiates the general
statement at its newest matching row. -/
theorem c7_witness :
    ((∀ m' ∈ (ctxMsgs 4 "c" c7Store2).take 20,
        (parsePayload m'.payload).isSome = true) ∧
      ((ctxMsgs 4 "c" c7Store2).take 20).find?
        (fun m' => msgKey m' == some "k") = some c7KRow2) ∧
    getContext 4 "c" "k" c7Store2 = some (msgVal c7KRow2) :=
  ⟨⟨by decide, by decide⟩,
   c7_getContext_amended.1 4 "c" "k" c7Store2 c7KRow2 (by decide)
     (by decide)⟩

/-- C8 evaluated at the failing input: a message posted with
`ttlMinutes = 0` is stored with `expires_at = NULL` (0 is falsy), so far
from being expired on creation it never expires — `readMessages` and
`getContext` still return it arbitrarily late and `cleanExpired` deletes
nothing; a nonzero `ttlMinutes` stores `expires_at = now + ttl` as the
claim says. -/
theorem c8_ttl_zero_behavior :
    c8Store.messages.map (·.expires_at) = [none] ∧
    (readMessages 1000000000 "c" ⟨none, none, none, none⟩ c8Store).1.map
      (·.id) = [0] ∧
    getContext 1000000000 "c" "k" c8CtxStore = some (.jstr "v") ∧
    (cleanExpired 1000000000 c8Store).1 = 0 ∧
    (cleanExpired 1000000000 c8Store).2 = c8Store ∧
    (postMessage 5 ⟨some "c", some "s", none, none, some (.jstr "p"),
        some 7⟩ emptyStore).toOption.map
      (fun r => r.2.messages.map (·.expires_at)) = some [some (5 + 7 * 60000)]
    := by
  decide

/-- C9 evaluated on the code: `postMessage` performs no type-enum check —
`type: "bogus"` inserts one row and returns its id — while a missing
`channel`, `sender` or `payload` does throw (the driver refuses to bind
`undefined`), and a non-string payload is stored as its JSON string form. -/
theorem c9_postMessage_behavior :
    (postMessage 0 ⟨some "x", some "y", none, some "bogus",
        some (.jstr "z"), none⟩ emptyStore).toOption
      = some (0, ⟨[⟨0, "x", "y", none, "bogus", .text "z", 0, none⟩], [], 1⟩) ∧
    (postMessage 0 ⟨none, some "y", none, none, some (.jstr "z"), none⟩
      emptyStore).toOption = none ∧
    (postMessage 0 ⟨some "x", none, none, none, some (.jstr "z"), none⟩
      emptyStore).toOption = none ∧
    (postMessage 0 ⟨some "x", some "y", none, none, none, none⟩
      emptyStore).toOption = none ∧
    (postMessage 0 ⟨some "c", some "s", none, none,
        some (.jobj [("foo", .jstr "bar")]), none⟩ emptyStore).toOption.map
      (fun r => r.2.messages.map (fun m => storedText m.payload))
      = some ["\x7b\"foo\":\"bar\"\x7d"] := by
  decide

/-- Witness for C10: a data message skipped by a signal-filtered read is
never returned by later reads of that agent, even after further posts. -/
theorem c10_witness :
    (readMessages 3 "c" c10ReadSig c10Store
        = ((readMessages 3 "c" c10ReadSig c10Store).1,
           (readMessages 3 "c" c10ReadSig c10Store).2) ∧
      c10ReadSig.agentId = some "a" ∧
      (readMessages 3 "c" c10ReadSig c10Store).1.getLast? = some c10M2 ∧
      c10M1.id < c10M2.id) ∧
    (cursorFor (readMessages 3 "c" c10ReadSig c10Store).2.cursors "a" "c"
        = some c10M2.id ∧
      ∀ m' ∈ (readMessages 9 "c" ⟨some "a", none, none, none⟩
        (bsteps (readMessages 3 "c" c10ReadSig c10Store).2
          [.post 5 (dataArgs "M3")])).1, m'.id ≠ c10M1.id) :=
  ⟨⟨rfl, rfl, by decide, by decide⟩, by
    have h := c10_cursor_skip c10Store 3 "c" "a" c10ReadSig
      (readMessages 3 "c" c10ReadSig c10Store).1
      (readMessages 3 "c" c10ReadSig c10Store).2
      c10M2 c10M1 rfl rfl (by decide) (by decide)
    exact ⟨h.1, fun m' hm' => h.2 [.post 5 (dataArgs "M3")] 9
      ⟨some "a", none, none, none⟩ rfl m' hm'⟩⟩

end BUS

namespace RT

theorem delaysFrom_eq : ∀ (j a : Nat),
    delaysFrom a j = (List.range j).map fun i => 1000 * 2 ^ (a + i)
  | 0, a => by simp [delaysFrom]
  | j + 1, a => by
    unfold delaysFrom
    rw [delaysFrom_eq j (a + 1)]
    rw [List.range_succ_eq_map, List.map_cons, List.map_map]
    congr 1
    apply List.map_congr_left
    intro i _
    rw [show a + 1 + i = a + (i + 1) by omega]
    rfl

theorem retryLoop_skip (out : Nat → Except String String) :
    ∀ (j attempt : Nat) (delays : List Nat) (r : Nat),
    (∀ i, i < j → transientErr (out (attempt + i)) = true) →
    j ≤ r →
    retryLoop out attempt delays r
      = retryLoop out (attempt + j) (delays ++ delaysFrom attempt j) (r - j)
  | 0, attempt, delays, r, _, _ => by simp [delaysFrom]
  | j + 1, attempt, delays, r, htr, hle => by
    have h0 := htr 0 (by omega)
    rw [Nat.add_zero] at h0
    cases r with
    | zero => omega
    | succ r =>
      cases hout : out attempt with
      | ok t => rw [hout] at h0; simp [transientErr] at h0
      | error e =>
        rw [hout] at h0
        simp only [transientErr] at h0
        have hstep : retryLoop out attempt delays (r + 1)
            = retryLoop out (attempt + 1)
                (delays ++ [1000 * 2 ^ attempt]) r := by
          conv_lhs => unfold retryLoop
          simp only [hout, h0, if_true]
        rw [hstep]
        have ih := retryLoop_skip out j (attempt + 1)
          (delays ++ [1000 * 2 ^ attempt]) r
          (fun i hi => by
            have := htr (i + 1) (by omega)
            rwa [show attempt + (i + 1) = attempt + 1 + i by omega] at this)
          (by omega)
        rw [ih]
        congr 1
        · omega
        · rw [List.append_assoc]
          congr 1
        · omega

theorem retryLoop_ok (out : Nat → Except String String) (attempt : Nat)
    (delays : List Nat) (t : String) (hout : out attempt = .ok t) :
    ∀ r, retryLoop out attempt delays r = ⟨attempt + 1, delays, .ok t⟩
  | 0 => by unfold retryLoop; rw [hout]
  | r + 1 => by unfold retryLoop; rw [hout]

theorem retryLoop_err_zero (out : Nat → Except String String) (attempt : Nat)
    (delays : List Nat) (e : String) (hout : out attempt = .error e) :
    retryLoop out attempt delays 0 = ⟨attempt + 1, delays, .error e⟩ := by
  unfold retryLoop
  rw [hout]

theorem retryLoop_err_nontrans (out : Nat → Except String String)
    (attempt : Nat) (delays : List Nat) (e : String)
    (hout : out attempt = .error e) (hnt : isTransient e = false) :
    ∀ r, retryLoop out attempt delays r = ⟨attempt + 1, delays, .error e⟩
  | 0 => by unfold retryLoop; rw [hout]
  | r + 1 => by
    unfold retryLoop
    simp only [hout, hnt, Bool.false_eq_true, if_false]

/-- C6: transient-error retry in `executeDecomposed`.  (1) A non-transient
error on the first attempt stops immediately: one attempt, no backoff
delays, the task's error.  (2) If the first `k ≤ maxRetries` attempts are
transient errors and attempt `k` succeeds, the loop records `k + 1`
attempts, backoff delays `1000·2^0, …, 1000·2^(k-1)` ms, and the success;
(3) if all of attempts `0..maxRetries` fail transiently the loop stops
after `maxRetries + 1` attempts with the last error.  (4)/(5) On a
successful outcome the subtask row ends `done` with the returned text; on
an error outcome it ends `failed` with the error message.  (6) The S5
stub (fail twice with "HTTP 429 rate_limit", then succeed) records 3
attempts with delays 1000 ms and 2000 ms and ends `done`, and the
transient matcher accepts timeout/429 messages but not "boom". -/
theorem c6_transient_retry :
    (∀ (maxRetries : Nat) (out : Nat → Except String String) (e : String),
        out 0 = .error e → isTransient e = false →
        execRetry maxRetries out = ⟨1, [], .error e⟩) ∧
    (∀ (maxRetries k : Nat) (out : Nat → Except String String) (t : String),
        k ≤ maxRetries →
        (∀ i, i < k → transientErr (out i) = true) →
        out k = .ok t →
        execRetry maxRetries out
          = ⟨k + 1, (List.range k).map fun i => 1000 * 2 ^ i, .ok t⟩) ∧
    (∀ (maxRetries : Nat) (out : Nat → Except String String) (e : String),
        (∀ i, i < maxRetries → transientErr (out i) = true) →
        out maxRetries = .error e →
        execRetry maxRetries out
          = ⟨maxRetries + 1,
             (List.range maxRetries).map fun i => 1000 * 2 ^ i,
             .error e⟩) ∧
    (∀ (q : TQ.QState) (id : String) (mr now : Nat)
        (out : Nat → Except String String) (t : String),
        (execRetry mr out).outcome = .ok t →
        ∀ u ∈ (execSubtask q id mr out now).1, u.id = id →
          u.status = TQ.Status.done ∧ u.result = some t ∧
          u.completed_at = some now) ∧
    (∀ (q : TQ.QState) (id : String) (mr now : Nat)
        (out : Nat → Except String String) (e : String),
        (execRetry mr out).outcome = .error e →
        ∀ u ∈ (execSubtask q id mr out now).1, u.id = id →
          u.status = TQ.Status.failed ∧ u.error = some e ∧
          u.completed_at = some now) ∧
    (execRetry 2 c6Out = ⟨3, [1000, 2000], .ok "done"⟩ ∧
      isTransient "HTTP 429 rate_limit" = true ∧
      isTransient "Request timeout" = true ∧
      isTransient "ECONNRESET" = true ∧
      isTransient "boom" = false) := by
  refine ⟨?_, ?_, ?_, ?_, ?_, by decide⟩
  · intro mr out e h0 hnt
    unfold execRetry
    exact retryLoop_err_nontrans out 0 [] e h0 hnt mr
  · intro mr k out t hk htr hout
    unfold execRetry
    rw [retryLoop_skip out k 0 [] mr (fun i hi => by simpa using htr i hi) hk]
    rw [Nat.zero_add, List.nil_append]
    rw [retryLoop_ok out k (delaysFrom 0 k) t hout]
    rw [delaysFrom_eq k 0]
    simp
  · intro mr out e htr hout
    unfold execRetry
    rw [retryLoop_skip out mr 0 [] mr
      (fun i hi => by simpa using htr i hi) le_rfl]
    rw [Nat.zero_add, List.nil_append, Nat.sub_self]
    rw [retryLoop_err_zero out mr (delaysFrom 0 mr) e hout]
    rw [delaysFrom_eq mr 0]
    simp
  · intro q id mr now out t hok u hu hid
    simp only [execSubtask, hok, TQ.completeTask] at hu
    obtain ⟨t0, _, hcase⟩ := TQ.mem_updateWhere hu
    rcases hcase with ⟨_, rfl⟩ | ⟨hp, rfl⟩
    · exact ⟨rfl, rfl, rfl⟩
    · rw [hid] at hp
      simp at hp
  · intro q id mr now out e herr u hu hid
    simp only [execSubtask, herr, TQ.failTask] at hu
    obtain ⟨t0, _, hcase⟩ := TQ.mem_updateWhere hu
    rcases hcase with ⟨_, rfl⟩ | ⟨hp, rfl⟩
    · exact ⟨rfl, rfl, rfl⟩
    · rw [hid] at hp
      simp at hp

theorem c6_witness :
    execRetry 2 c6Out = ⟨3, [1000, 2000], .ok "done"⟩ ∧
    execRetry 2 (fun _ => .error "boom") = ⟨1, [], .error "boom"⟩ ∧
    (∀ u ∈ (execSubtask [] "s-task-0" 2 c6Out 7).1, u.id = "s-task-0" →
      u.status = TQ.Status.done ∧ u.result = some "done" ∧
      u.completed_at = some 7) := by
  refine ⟨?_, ?_, ?_⟩
  · have h := c6_transient_retry.2.1 2 2 c6Out "done" (by decide)
      (by decide) (by decide)
    rw [h]
    decide
  · exact c6_transient_retry.1 2 (fun _ => .error "boom") "boom" rfl
      (by decide)
  · exact c6_transient_retry.2.2.2.1 [] "s-task-0" 2 7 c6Out "done"
      (by decide)

end RT
